import Mathlib

/-!
Verification development for the incremental-redefinition REPL
(`src/REPL.cpp`, `src/CommandLineOptions.cpp`).

The state machine below is a shallow embedding of `REPL::ExecuteSwift` and its
callees.  Per-turn mutable members of the `REPL` class become fields of
`ReplState`; LLVM modules become `LLVMModule` values; the external JIT, the IR
call-rewriting pass and the outer input loop (whose sources,
`JIT.cpp`/`TransformIR.cpp`/`main.cpp`, are not part of the two provided source
files) are modelled from the design document's contracts, and each such
definition is marked `Modelled from the spec:` in its doc comment.
-/

/-! ### Association-list primitives (model of `std::map` access patterns) -/

/-- Lookup in an association list keyed by strings (model of `map::find`). -/
def mapFind {β : Type} : List (String × β) → String → Option β
  | [], _ => none
  | (k, v) :: rest, key => if k = key then some v else mapFind rest key

/-- Insert-or-overwrite (model of `map::operator[]` assignment). -/
def mapSet {β : Type} : List (String × β) → String → β → List (String × β)
  | [], key, val => [(key, val)]
  | (k, v) :: rest, key, val =>
    if k = key then (key, val) :: rest else (k, v) :: mapSet rest key val

/-- Overwrite the value of an existing key; keys never change (model of a
memory write through a pointer into an existing cell). -/
def mapSetIfPresent {β : Type} : List (String × β) → String → β → List (String × β)
  | [], _, _ => []
  | (k, v) :: rest, key, val =>
    if k = key then (key, val) :: rest else (k, v) :: mapSetIfPresent rest key val

/-- Remove a key's binding (model of unbinding a symbol). -/
def mapErase {β : Type} : List (String × β) → String → List (String × β)
  | [], _ => []
  | (k, v) :: rest, key => if k = key then rest else (k, v) :: mapErase rest key

/-! ### Data model -/

/-- Identity of one compiled function body: which link symbol it implements and
which turn's compilation produced it.  Dereferencing a code address and running
it is identified with this value. -/
structure Impl where
  symbol : String
  turn : Nat
deriving DecidableEq, Repr

/-- What a successful `JIT::LookupSymbol` can return: the address of a compiled
function body, or the address of an indirection slot cell. -/
inductive SymAddr where
  | fnAddr : Impl → SymAddr
  | slotAddr : String → SymAddr
deriving DecidableEq, Repr

/-- Observable JIT-session operations, recorded in order (used to state the
temporal claims). -/
inductive Event where
  | removeSym : String → Event
  | addUnit : Nat → Event
  | patchSlot : String → SymAddr → Event
  | invokeEntry : String → Event
  | printInvalidRedecl : String → Event
deriving DecidableEq, Repr

/-- One function of an LLVM module, with the two attributes
`RemoveRedeclarationsFromJIT` inspects (`isDeclaration`, `hasExternalLinkage`). -/
structure IRFunc where
  name : String
  isDeclaration : Bool
  hasExternalLinkage : Bool
deriving DecidableEq, Repr

/-- A call site in generated code: either a direct call to a symbol or a call
through an indirection slot (the result of rewriting). -/
inductive CallSite where
  | direct : String → CallSite
  | throughSlot : String → CallSite
deriving DecidableEq, Repr

/-- A generated LLVM module for one declaration unit.  `turn` records which
turn's compilation produced its function bodies. -/
structure LLVMModule where
  functions : List IRFunc
  calls : List CallSite
  turn : Nat
deriving DecidableEq, Repr

/-- One checked value declaration of a turn, after `ModifyAST` (so the
synthetic entry wrapper, when present, appears as an ordinary `FuncDecl` whose
unmangled name equals the turn's module name).  The error/link flags are the
oracle for the external frontend/codegen/JIT collaborators while this
declaration is processed. -/
structure SwiftDecl where
  isFunc : Bool
  unmangled : String
  mangled : String
  calls : List String
  silgenError : Bool
  silPassError : Bool
  addModuleOk : Bool
deriving DecidableEq, Repr

/-- The name under which the declaration's unit is linked: the mangled symbol
for functions, the plain name otherwise (`ExecuteSwift`, lines 236 and 250). -/
def SwiftDecl.linkName (d : SwiftDecl) : String :=
  if d.isFunc then d.mangled else d.unmangled

/-- One line of input, together with the frontend oracle for it: whether the
diagnostic engine reports an error during parsing, name binding or type
checking, and the checked declaration list the frontend produces. -/
structure TurnInput where
  line : String
  parseError : Bool
  nameBindError : Bool
  typeCheckError : Bool
  decls : List SwiftDecl
deriving DecidableEq, Repr

/-- The mutable members of the `REPL` class plus the JIT session state.
`unremovable` is the JIT oracle: symbols whose removal fails with
`SymbolsCouldNotBeRemoved` rather than succeeding or reporting not-found. -/
structure ReplState where
  isPlayground : Bool
  currInputNumber : Nat
  hadError : Bool
  declMap : List (String × Bool)
  fnPtrMap : List (String × String)
  jitBindings : List (String × Impl)
  slotStore : List (String × Option SymAddr)
  unremovable : List String
  addedModules : List LLVMModule
  trace : List Event
deriving DecidableEq, Repr

/-! ### JIT session primitives -/

/-- Modelled from the spec: deterministic slot naming, §4.4 step 1 ("an
uninitialized pointer-sized slot named deterministically from the symbol");
the emitting code is in `TransformIR.cpp`, absent from src/. -/
def slotName (sym : String) : String := "__swift_repl_fnptr_" ++ sym

/-- Result of `JIT::RemoveSymbol`. -/
inductive RemoveOutcome where
  | removed : RemoveOutcome
  | notFound : RemoveOutcome
  | couldNotBeRemoved : RemoveOutcome
deriving DecidableEq, Repr

/-- Modelled from the spec: `JIT::LookupSymbol` (`JIT.cpp` absent from src/),
§4.5 `lookupSymbol(name) -> Address | NotFound`.  A name resolves to a
function body if bound, else to the slot cell of that name if one was
allocated. -/
def jitLookup (st : ReplState) (name : String) : Option SymAddr :=
  match mapFind st.jitBindings name with
  | some impl => some (SymAddr.fnAddr impl)
  | none => if (mapFind st.slotStore name).isSome then some (SymAddr.slotAddr name) else none

/-- Modelled from the spec: `JIT::RemoveSymbol` (`JIT.cpp` absent from src/),
§4.5 `removeSymbol(name) -> Result`: unbinds a bound symbol; an unbound name
reports not-found; the oracle set `unremovable` yields the other failure. -/
def jitRemoveSymbol (st : ReplState) (name : String) : RemoveOutcome × ReplState :=
  match mapFind st.jitBindings name with
  | none => (RemoveOutcome.notFound, st)
  | some _ =>
    if st.unremovable.contains name then (RemoveOutcome.couldNotBeRemoved, st)
    else (RemoveOutcome.removed,
          { st with jitBindings := mapErase st.jitBindings name,
                    trace := st.trace ++ [Event.removeSym name] })

/-- Binds every externally-visible defined function of a module to a fresh
implementation address for this turn. -/
def bindModuleFns (turn : Nat) : List (String × Impl) → List IRFunc → List (String × Impl)
  | bs, [] => bs
  | bs, fn :: rest =>
    if fn.isDeclaration || !fn.hasExternalLinkage then bindModuleFns turn bs rest
    else bindModuleFns turn (mapSet bs fn.name ⟨fn.name, turn⟩) rest

/-- Modelled from the spec: `JIT::AddModule` (`JIT.cpp` absent from src/),
§4.5 `addUnit`: on success merges the unit's externally visible symbols into
the live symbol table and keeps the unit alive; on failure changes nothing.
`ok` is the link oracle; `REPL.cpp` line 394 ignores the result either way. -/
def jitAddModule (st : ReplState) (m : LLVMModule) (ok : Bool) : ReplState :=
  if ok then
    { st with jitBindings := bindModuleFns m.turn st.jitBindings m.functions,
              addedModules := st.addedModules ++ [m],
              trace := st.trace ++ [Event.addUnit m.turn] }
  else st

/-! ### The core passes of `REPL.cpp` -/

/-- One iteration of the loop of `REPL::RemoveRedeclarationsFromJIT` (lines
45-59) for a non-skipped function: attempt removal (not-found passes,
could-not-be-removed is only logged), then ensure an `m_fn_ptr_map` entry
exists, initialised to the empty string. -/
def removeStep (st : ReplState) (fn : IRFunc) : ReplState :=
  let st1 := (jitRemoveSymbol st fn.name).2
  if (mapFind st1.fnPtrMap fn.name).isSome then st1
  else { st1 with fnPtrMap := st1.fnPtrMap ++ [(fn.name, "")] }

/-- The loop of `REPL::RemoveRedeclarationsFromJIT` (lines 41-60): declarations
and non-externally-linked functions are skipped (line 43). -/
def RemoveRedeclarationsGo : ReplState → List IRFunc → ReplState
  | st, [] => st
  | st, fn :: rest =>
    if fn.isDeclaration || !fn.hasExternalLinkage then RemoveRedeclarationsGo st rest
    else RemoveRedeclarationsGo (removeStep st fn) rest

/-- `REPL::RemoveRedeclarationsFromJIT` (lines 37-61). -/
def RemoveRedeclarationsFromJIT (st : ReplState) (m : LLVMModule) : ReplState :=
  RemoveRedeclarationsGo st m.functions

/-- Modelled from the spec: loop body of `AddFunctionPointers`
(`TransformIR.cpp`, absent from src/), §4.4 step 1: for every externally
visible function symbol defined in the unit, record its deterministically
named slot in the Indirection Table and allocate the process-wide cell once
per symbol (never reallocated). -/
def addStep (st : ReplState) (fn : IRFunc) : ReplState :=
  let st1 := { st with fnPtrMap := mapSet st.fnPtrMap fn.name (slotName fn.name) }
  if (mapFind st1.slotStore (slotName fn.name)).isSome then st1
  else { st1 with slotStore := st1.slotStore ++ [(slotName fn.name, none)] }

/-- Modelled from the spec: loop of `AddFunctionPointers` over the unit's
functions, skipping declarations and non-externally-linked ones. -/
def AddFunctionPointersGo : ReplState → List IRFunc → ReplState
  | st, [] => st
  | st, fn :: rest =>
    if fn.isDeclaration || !fn.hasExternalLinkage then AddFunctionPointersGo st rest
    else AddFunctionPointersGo (addStep st fn) rest

/-- Modelled from the spec: `AddFunctionPointers` (`TransformIR.cpp`, absent
from src/), §4.4 step 1. -/
def AddFunctionPointers (st : ReplState) (m : LLVMModule) : ReplState :=
  AddFunctionPointersGo st m.functions

/-- Modelled from the spec: `ReplaceFunctionCallsWithIndirectFunctionCalls`
(`TransformIR.cpp`, absent from src/), §4.4 step 2: every direct call whose
target has a (named) Indirection Table entry becomes a call through the
target's slot, uniformly for callees of this unit and of previous ones. -/
def ReplaceFunctionCallsWithIndirectFunctionCalls (st : ReplState) (m : LLVMModule) : LLVMModule :=
  { m with calls := m.calls.map (fun c =>
      match c with
      | CallSite.direct t =>
        match mapFind st.fnPtrMap t with
        | some sl => if sl = "" then CallSite.direct t else CallSite.throughSlot sl
        | none => CallSite.direct t
      | CallSite.throughSlot s => CallSite.throughSlot s) }

/-- Model of the module produced for one declaration unit by
`performSILGeneration`/`performIRGeneration` as shaped by
`ConfigureFunctionLinkage` (lines 16-35): the declaration's link symbol is a
defined, externally visible function (functions are set to public linkage)
and the synthetic `main` is private; call sites start direct. -/
def codegenModule (turn : Nat) (d : SwiftDecl) : LLVMModule :=
  { functions := (if d.isFunc then [⟨d.mangled, false, true⟩] else []) ++ [⟨"main", false, false⟩],
    calls := d.calls.map CallSite.direct,
    turn := turn }

/-- Loop body of `REPL::UpdateFunctionPointers` (lines 315-335): for every
entry of `m_fn_ptr_map`, look up the function symbol, then the slot symbol; a
failed lookup aborts with an error; otherwise write the function's resolved
address through the slot's address. -/
def UpdateFunctionPointersGo : ReplState → List (String × String) → Bool × ReplState
  | st, [] => (true, st)
  | st, (sym, slot) :: rest =>
    match jitLookup st sym with
    | none => (false, st)
    | some a =>
      match jitLookup st slot with
      | none => (false, st)
      | some _ =>
        UpdateFunctionPointersGo
          { st with slotStore := mapSetIfPresent st.slotStore slot (some a),
                    trace := st.trace ++ [Event.patchSlot slot a] } rest

/-- `REPL::UpdateFunctionPointers` (lines 315-335).  `false` models returning
an `llvm::Error`. -/
def UpdateFunctionPointers (st : ReplState) : Bool × ReplState :=
  UpdateFunctionPointersGo st st.fnPtrMap

/-- The IR-to-JIT tail of `REPL::CompileSourceFileToIRAndAddToJIT` (lines
356-401): generate the module, remove redeclarations, create slots, rewrite
calls, add the module (result ignored, line 394), then patch every slot; a
failed `UpdateFunctionPointers` logs and returns `false`. -/
def compilePipeline (st : ReplState) (d : SwiftDecl) : Bool × ReplState :=
  let m := codegenModule st.currInputNumber d
  let st3 := RemoveRedeclarationsFromJIT st m
  let st4 := AddFunctionPointers st3 m
  let m2 := ReplaceFunctionCallsWithIndirectFunctionCalls st4 m
  let st5 := jitAddModule st4 m2 d.addModuleOk
  let r := UpdateFunctionPointers st5
  if r.1 then (true, r.2) else (false, r.2)

/-- `REPL::CompileSourceFileToIRAndAddToJIT` (lines 338-402).  Note the
`CHECK_ERROR()`s return `true` (the success value) when the sticky diagnostic
flag is set, silently skipping the unit. -/
def CompileSourceFileToIRAndAddToJIT (st : ReplState) (d : SwiftDecl) : Bool × ReplState :=
  let st1 := if d.silgenError then { st with hadError := true } else st
  if st1.hadError then (true, st1)
  else
    let st2 := if d.silPassError then { st1 with hadError := true } else st1
    if st2.hadError then (true, st2)
    else compilePipeline st2 d

/-! ### The per-turn driver `REPL::ExecuteSwift` -/

/-- `REPL::IsExitString` (lines 132-135). -/
def IsExitString (line : String) : Bool :=
  line == "e" || line == "exit"

/-- Result of the redeclaration checks of `ExecuteSwift` (lines 230-252). -/
inductive ValidationResult where
  | accept : ValidationResult
  | reject : String → ValidationResult
deriving DecidableEq, Repr

/-- The redeclaration checks of `ExecuteSwift` (lines 230-252): a function is
rejected when its unmangled name is registered to a non-function, or, in
playground mode, when its exact mangled symbol is registered; a non-function
is rejected when its name is registered at all. -/
def validateDecl (st : ReplState) (d : SwiftDecl) : ValidationResult :=
  if d.isFunc then
    match mapFind st.declMap d.unmangled with
    | some isF =>
      if !isF then ValidationResult.reject d.unmangled
      else if st.isPlayground && (mapFind st.declMap d.mangled).isSome then
        ValidationResult.reject d.unmangled
      else ValidationResult.accept
    | none =>
      if st.isPlayground && (mapFind st.declMap d.mangled).isSome then
        ValidationResult.reject d.unmangled
      else ValidationResult.accept
  else
    if (mapFind st.declMap d.unmangled).isSome then ValidationResult.reject d.unmangled
    else ValidationResult.accept

/-- How the declaration loop of `ExecuteSwift` ends. -/
inductive TurnExit where
  | completed : Option String → TurnExit
  | abortedInvalidRedecl : TurnExit
  | abortedCompileFailure : TurnExit
deriving DecidableEq, Repr

/-- Wrapper-module name for a turn: `AddToSrcMgr` (lines 430-440). -/
def turnModuleName (n : Nat) : String := "__repl_" ++ toString n

/-- The declaration loop of `ExecuteSwift` (lines 218-291): note the entry
wrapper `res_fn` is recognised by unmangled name equal to the module name; a
rejected declaration prints `Invalid redeclaration of <name>` and returns from
`ExecuteSwift` (the `PRINT_INVALID_REDECLARATION` macro, line 141); an
accepted declaration updates `m_decl_map` under both names before compiling. -/
def ProcessDecls : ReplState → String → Option String → List SwiftDecl → TurnExit × ReplState
  | st, _, resFn, [] => (TurnExit.completed resFn, st)
  | st, moduleName, resFn, d :: rest =>
    let resFn2 := if d.isFunc && (d.unmangled == moduleName) then some d.mangled else resFn
    match validateDecl st d with
    | ValidationResult.reject n =>
      (TurnExit.abortedInvalidRedecl, { st with trace := st.trace ++ [Event.printInvalidRedecl n] })
    | ValidationResult.accept =>
      let st1 := { st with
        declMap := mapSet (mapSet st.declMap d.unmangled d.isFunc) d.linkName d.isFunc }
      let r := CompileSourceFileToIRAndAddToJIT st1 d
      if r.1 then ProcessDecls r.2 moduleName resFn2 rest
      else (TurnExit.abortedCompileFailure, r.2)

/-- `REPL::ExecuteSwift` (lines 143-313).  The input number is incremented
and the sticky diagnostic flag reset before the exit-string check; frontend
diagnostics return `true` early; after the declaration loop the entry wrapper,
if any, is looked up and invoked, and a failed lookup returns `false` — the
same value the exit string returns. -/
def ExecuteSwift (st : ReplState) (input : TurnInput) : Bool × ReplState :=
  let st0 := { st with currInputNumber := st.currInputNumber + 1, hadError := false }
  if IsExitString input.line then (false, st0)
  else
    let moduleName := turnModuleName st0.currInputNumber
    let st1 := if input.parseError then { st0 with hadError := true } else st0
    if st1.hadError then (true, st1)
    else
      let st2 := if input.nameBindError then { st1 with hadError := true } else st1
      if st2.hadError then (true, st2)
      else
        let st3 := if input.typeCheckError then { st2 with hadError := true } else st2
        if st3.hadError then (true, st3)
        else
          match ProcessDecls st3 moduleName none input.decls with
          | (TurnExit.abortedInvalidRedecl, st4) => (true, st4)
          | (TurnExit.abortedCompileFailure, st4) => (true, st4)
          | (TurnExit.completed none, st4) => (true, st4)
          | (TurnExit.completed (some resSym), st4) =>
            match jitLookup st4 resSym with
            | some _ => (true, { st4 with trace := st4.trace ++ [Event.invokeEntry resSym] })
            | none => (false, st4)

/-- Modelled from the spec: the Turn Controller loop (`main.cpp`, absent from
src/), §4.1: feed each (non-blank) line to `ExecuteSwift`; a `false` return
terminates the loop, a `true` return re-prompts. -/
def RunLoop : ReplState → List TurnInput → ReplState
  | st, [] => st
  | st, i :: rest =>
    let r := ExecuteSwift st i
    if r.1 then RunLoop r.2 rest else r.2

/-- Executing one call site of linked code in the current process state: a
direct call runs whatever the symbol resolves to; a call through a slot loads
the slot's current contents and runs that. -/
def runCallSite (st : ReplState) : CallSite → Option SymAddr
  | CallSite.direct t => jitLookup st t
  | CallSite.throughSlot s =>
    match mapFind st.slotStore s with
    | some (some a) => some a
    | _ => none

/-- Well-formedness of the Indirection Table, true of every reachable quiescent
state: no symbol has two entries, and each entry maps a symbol to its
deterministic slot name with its slot cell allocated. -/
def wfPtrMap (st : ReplState) : Prop :=
  st.fnPtrMap.Pairwise (fun p q => p.1 ≠ q.1) ∧
  ∀ p ∈ st.fnPtrMap, p.2 = slotName p.1 ∧ (mapFind st.slotStore p.2).isSome

/-! ### Concrete fixtures (used to evaluate the development on closed inputs) -/

/-- A fresh session state: playground off, no declarations, nothing linked. -/
def emptyState : ReplState :=
  { isPlayground := false, currInputNumber := 0, hadError := false, declMap := [],
    fnPtrMap := [], jitBindings := [], slotStore := [], unremovable := [],
    addedModules := [], trace := [] }

/-- A clean function declaration `f` with link symbol `$f`. -/
def fnDeclF : SwiftDecl :=
  { isFunc := true, unmangled := "f", mangled := "$f", calls := [],
    silgenError := false, silPassError := false, addModuleOk := true }

/-- The unit linked for `$f` in turn 1. -/
def turn1Module : LLVMModule :=
  { functions := [⟨"$f", false, true⟩, ⟨"main", false, false⟩], calls := [], turn := 1 }

/-- The session state after a turn 1 that defined `f`: `$f` is registered,
bound to its turn-1 body, and its slot holds the turn-1 address. -/
def stAfterTurn1 : ReplState :=
  { isPlayground := false, currInputNumber := 1, hadError := false,
    declMap := [("f", true), ("$f", true)],
    fnPtrMap := [("$f", slotName "$f")],
    jitBindings := [("$f", ⟨"$f", 1⟩)],
    slotStore := [(slotName "$f", some (SymAddr.fnAddr ⟨"$f", 1⟩))],
    unremovable := [], addedModules := [turn1Module], trace := [] }

/-- An input line that redefines `f`. -/
def inputRedefineF : TurnInput :=
  { line := "func f() { }", parseError := false, nameBindError := false,
    typeCheckError := false, decls := [fnDeclF] }

/-- A variable declaration using the same name `f`. -/
def varDeclF : SwiftDecl :=
  { isFunc := false, unmangled := "f", mangled := "f", calls := [],
    silgenError := false, silPassError := false, addModuleOk := true }

/-- A fresh clean function declaration `g`. -/
def fnDeclG : SwiftDecl :=
  { isFunc := true, unmangled := "g", mangled := "$g", calls := [],
    silgenError := false, silPassError := false, addModuleOk := true }

/-- A session state where `f` is registered as a variable (non-function). -/
def stVarF : ReplState :=
  { emptyState with declMap := [("f", false)] }

/-- The exit line. -/
def inputExit : TurnInput :=
  { line := "exit", parseError := false, nameBindError := false,
    typeCheckError := false, decls := [] }

/-- A turn whose first declaration is an invalid redeclaration of the
variable `f`, followed by a fresh function `g`. -/
def inputRedeclThenG : TurnInput :=
  { line := "var f = 1; func g() { }", parseError := false, nameBindError := false,
    typeCheckError := false, decls := [varDeclF, fnDeclG] }

/-- `stAfterTurn1` with the JIT refusing to remove `$f`. -/
def stUnremovable : ReplState :=
  { stAfterTurn1 with unremovable := ["$f"] }

/-- A turn-1 entry wrapper whose SIL generation reports a diagnostic, so its
unit is silently skipped and the wrapper symbol is never linked. -/
def wrapperBad : SwiftDecl :=
  { isFunc := true, unmangled := "__repl_1", mangled := "$w1", calls := [],
    silgenError := true, silPassError := false, addModuleOk := true }

/-- The input producing `wrapperBad` as the whole turn. -/
def inputWrapperBad : TurnInput :=
  { line := "1 + 1", parseError := false, nameBindError := false,
    typeCheckError := false, decls := [wrapperBad] }

/-- A declaration of `f` whose unit fails to link. -/
def fnDeclBadLink : SwiftDecl :=
  { fnDeclF with addModuleOk := false }

/-- An input whose only unit fails to link. -/
def inputBadLink : TurnInput :=
  { line := "func f() { }", parseError := false, nameBindError := false,
    typeCheckError := false, decls := [fnDeclBadLink] }

/-- A session state after a turn in which `$f`'s unit failed to link: the
Indirection Table records `$f` and its slot cell is allocated but unset, and
no binding for `$f` exists. -/
def stFailedLink : ReplState :=
  { isPlayground := false, currInputNumber := 1, hadError := false,
    declMap := [("f", true), ("$f", true)],
    fnPtrMap := [("$f", slotName "$f")],
    jitBindings := [], slotStore := [(slotName "$f", none)],
    unremovable := [], addedModules := [], trace := [] }

/-- An input on which the frontend reports a parse diagnostic. -/
def inputParseErr : TurnInput :=
  { line := "func f(", parseError := true, nameBindError := false,
    typeCheckError := false, decls := [fnDeclF] }

/-! ### Basic lemmas about the association-list primitives -/

theorem mapFind_mapSet_self {β : Type} (l : List (String × β)) (k : String) (v : β) :
    mapFind (mapSet l k v) k = some v := by
  induction l with
  | nil => simp [mapSet, mapFind]
  | cons p rest ih =>
    obtain ⟨k', v'⟩ := p
    by_cases h : k' = k
    · simp [mapSet, h, mapFind]
    · simp [mapSet, h, mapFind, ih]

theorem mapFind_mapSet_ne {β : Type} (l : List (String × β)) (k x : String) (v : β)
    (h : x ≠ k) : mapFind (mapSet l k v) x = mapFind l x := by
  induction l with
  | nil => simp [mapSet, mapFind, Ne.symm h]
  | cons p rest ih =>
    obtain ⟨k', v'⟩ := p
    by_cases hk : k' = k
    · subst hk
      simp [mapSet, mapFind, Ne.symm h]
    · simp [mapSet, hk, mapFind, ih]

theorem mapFind_mapSetIfPresent_self {β : Type} (l : List (String × β)) (k : String) (v : β)
    (h : (mapFind l k).isSome) : mapFind (mapSetIfPresent l k v) k = some v := by
  induction l with
  | nil => simp [mapFind] at h
  | cons p rest ih =>
    obtain ⟨k', v'⟩ := p
    by_cases hk : k' = k
    · simp [mapSetIfPresent, hk, mapFind]
    · simp [mapFind, hk] at h
      simp [mapSetIfPresent, hk, mapFind, ih h]

theorem mapFind_mapSetIfPresent_ne {β : Type} (l : List (String × β)) (k x : String) (v : β)
    (h : x ≠ k) : mapFind (mapSetIfPresent l k v) x = mapFind l x := by
  induction l with
  | nil => simp [mapSetIfPresent]
  | cons p rest ih =>
    obtain ⟨k', v'⟩ := p
    by_cases hk : k' = k
    · subst hk
      simp [mapSetIfPresent, mapFind, Ne.symm h]
    · simp [mapSetIfPresent, hk, mapFind, ih]

theorem mapFind_mapSetIfPresent_isSome {β : Type} (l : List (String × β)) (k x : String) (v : β) :
    (mapFind (mapSetIfPresent l k v) x).isSome = (mapFind l x).isSome := by
  induction l with
  | nil => simp [mapSetIfPresent]
  | cons p rest ih =>
    obtain ⟨k', v'⟩ := p
    by_cases hk : k' = k
    · subst hk
      by_cases hx : k' = x
      · subst hx
        simp [mapSetIfPresent, mapFind]
      · simp [mapSetIfPresent, mapFind, hx]
    · by_cases hx : k' = x
      · subst hx
        simp [mapSetIfPresent, hk, mapFind]
      · simp [mapSetIfPresent, hk, mapFind, hx, ih]

theorem mapFind_mapErase_ne {β : Type} (l : List (String × β)) (k x : String)
    (h : x ≠ k) : mapFind (mapErase l k) x = mapFind l x := by
  induction l with
  | nil => simp [mapErase]
  | cons p rest ih =>
    obtain ⟨k', v'⟩ := p
    by_cases hk : k' = k
    · subst hk
      simp [mapErase, mapFind, Ne.symm h]
    · simp [mapErase, hk, mapFind, ih]

theorem mapFind_append_left {β : Type} (l r : List (String × β)) (x : String) (v : β)
    (h : mapFind l x = some v) : mapFind (l ++ r) x = some v := by
  induction l with
  | nil => simp [mapFind] at h
  | cons p rest ih =>
    obtain ⟨k', v'⟩ := p
    by_cases hx : k' = x
    · simp [mapFind, hx] at h ⊢
      exact h
    · simp [mapFind, hx] at h ⊢
      exact ih h

theorem mapFind_append_right {β : Type} (l r : List (String × β)) (x : String)
    (h : mapFind l x = none) : mapFind (l ++ r) x = mapFind r x := by
  induction l with
  | nil => simp
  | cons p rest ih =>
    obtain ⟨k', v'⟩ := p
    by_cases hx : k' = x
    · simp [mapFind, hx] at h
    · simp [mapFind, hx] at h ⊢
      exact ih h

theorem mapFind_mem {β : Type} (l : List (String × β)) (x : String) (v : β)
    (h : mapFind l x = some v) : (x, v) ∈ l := by
  induction l with
  | nil => simp [mapFind] at h
  | cons p rest ih =>
    obtain ⟨k', v'⟩ := p
    by_cases hx : k' = x
    · subst hx
      simp [mapFind] at h
      simp [h]
    · simp [mapFind, hx] at h
      exact List.mem_cons_of_mem _ (ih h)

theorem mem_mapSet {β : Type} (l : List (String × β)) (k : String) (v : β) (p : String × β)
    (h : p ∈ mapSet l k v) : p ∈ l ∨ p = (k, v) := by
  induction l with
  | nil => simp [mapSet] at h; simp [h]
  | cons q rest ih =>
    obtain ⟨k', v'⟩ := q
    by_cases hk : k' = k
    · simp [mapSet, hk] at h
      rcases h with h | h
      · right; exact h
      · left; exact List.mem_cons_of_mem _ h
    · simp [mapSet, hk] at h
      rcases h with h | h
      · left; simp [h]
      · rcases ih h with h2 | h2
        · left; exact List.mem_cons_of_mem _ h2
        · right; exact h2

theorem mem_mapSetIfPresent {β : Type} (l : List (String × β)) (k : String) (v : β)
    (p : String × β) (h : p ∈ mapSetIfPresent l k v) : p ∈ l ∨ p = (k, v) := by
  induction l with
  | nil => simp [mapSetIfPresent] at h
  | cons q rest ih =>
    obtain ⟨k', v'⟩ := q
    by_cases hk : k' = k
    · simp [mapSetIfPresent, hk] at h
      rcases h with h | h
      · right; exact h
      · left; exact List.mem_cons_of_mem _ h
    · simp [mapSetIfPresent, hk] at h
      rcases h with h | h
      · left; simp [h]
      · rcases ih h with h2 | h2
        · left; exact List.mem_cons_of_mem _ h2
        · right; exact h2

theorem mem_mapErase {β : Type} (l : List (String × β)) (k : String) (p : String × β)
    (h : p ∈ mapErase l k) : p ∈ l := by
  induction l with
  | nil => simp [mapErase] at h
  | cons q rest ih =>
    obtain ⟨k', v'⟩ := q
    by_cases hk : k' = k
    · simp [mapErase, hk] at h
      exact List.mem_cons_of_mem _ h
    · simp [mapErase, hk] at h
      rcases h with h | h
      · simp [h]
      · exact List.mem_cons_of_mem _ (ih h)

/-! ### Facts about slot naming -/

theorem slotName_inj {a b : String} (h : slotName a = slotName b) : a = b := by
  have h2 := congrArg String.data h
  simp [slotName, String.data_append] at h2
  exact String.ext h2

theorem slotName_ne_empty (a : String) : slotName a ≠ "" := by
  intro h
  have h2 := congrArg String.length h
  rw [slotName, String.length_append] at h2
  have h3 : ("__swift_repl_fnptr_").length = 19 := rfl
  have h4 : ("" : String).length = 0 := rfl
  rw [h3, h4] at h2
  omega

theorem mapFind_none_forall {β : Type} (l : List (String × β)) (k : String)
    (h : mapFind l k = none) : ∀ p ∈ l, p.1 ≠ k := by
  induction l with
  | nil => simp
  | cons q rest ih =>
    obtain ⟨k', v'⟩ := q
    by_cases hk : k' = k
    · simp [mapFind, hk] at h
    · simp [mapFind, hk] at h
      intro p hp
      rcases List.mem_cons.mp hp with hp2 | hp2
      · simp [hp2, hk]
      · exact ih h p hp2

theorem pairwise_mapSet {β : Type} (l : List (String × β)) (k : String) (v : β)
    (h : l.Pairwise (fun p q => p.1 ≠ q.1)) :
    (mapSet l k v).Pairwise (fun p q => p.1 ≠ q.1) := by
  induction l with
  | nil => simp [mapSet]
  | cons q rest ih =>
    obtain ⟨k', v'⟩ := q
    rcases List.pairwise_cons.mp h with ⟨hh, ht⟩
    by_cases hk : k' = k
    · subst hk
      simp only [mapSet, if_pos rfl]
      exact List.pairwise_cons.mpr ⟨hh, ht⟩
    · simp only [mapSet, if_neg hk]
      refine List.pairwise_cons.mpr ⟨?_, ih ht⟩
      intro p hp
      rcases mem_mapSet rest k v p hp with hp2 | hp2
      · exact hh p hp2
      · simp [hp2, hk]

theorem mem_mapSet_pairwise {β : Type} (l : List (String × β)) (k : String) (v : β)
    (hnd : l.Pairwise (fun p q => p.1 ≠ q.1)) (p : String × β) (h : p ∈ mapSet l k v) :
    (p ∈ l ∧ p.1 ≠ k) ∨ p = (k, v) := by
  induction l with
  | nil =>
    simp [mapSet] at h
    right
    simp [h]
  | cons q rest ih =>
    obtain ⟨k', v'⟩ := q
    rcases List.pairwise_cons.mp hnd with ⟨hh, ht⟩
    by_cases hk : k' = k
    · subst hk
      simp only [mapSet, if_pos rfl] at h
      rcases List.mem_cons.mp h with h2 | h2
      · right; simp [h2]
      · left
        exact ⟨List.mem_cons_of_mem _ h2, Ne.symm (hh p h2)⟩
    · simp only [mapSet, if_neg hk] at h
      rcases List.mem_cons.mp h with h2 | h2
      · left
        refine ⟨by simp [h2], ?_⟩
        simp [h2, hk]
      · rcases ih ht h2 with ⟨h3, h4⟩ | h3
        · exact Or.inl ⟨List.mem_cons_of_mem _ h3, h4⟩
        · exact Or.inr h3

/-! ### Invariance of symbol resolution under slot writes -/

theorem jitLookup_congr (st st' : ReplState) (hb : st'.jitBindings = st.jitBindings)
    (hs : ∀ y, (mapFind st'.slotStore y).isSome = (mapFind st.slotStore y).isSome)
    (x : String) : jitLookup st' x = jitLookup st x := by
  unfold jitLookup
  rw [hb, hs x]

/-! ### Lemmas about `UpdateFunctionPointersGo` -/

theorem upGo_preserves (l : List (String × String)) (st : ReplState) :
    (UpdateFunctionPointersGo st l).2.jitBindings = st.jitBindings ∧
    (UpdateFunctionPointersGo st l).2.fnPtrMap = st.fnPtrMap ∧
    (UpdateFunctionPointersGo st l).2.declMap = st.declMap ∧
    (UpdateFunctionPointersGo st l).2.addedModules = st.addedModules ∧
    (UpdateFunctionPointersGo st l).2.currInputNumber = st.currInputNumber ∧
    (UpdateFunctionPointersGo st l).2.hadError = st.hadError ∧
    (UpdateFunctionPointersGo st l).2.isPlayground = st.isPlayground ∧
    (UpdateFunctionPointersGo st l).2.unremovable = st.unremovable ∧
    (∀ y, (mapFind (UpdateFunctionPointersGo st l).2.slotStore y).isSome
        = (mapFind st.slotStore y).isSome) := by
  induction l generalizing st with
  | nil => simp [UpdateFunctionPointersGo]
  | cons p rest ih =>
    obtain ⟨sym, slot⟩ := p
    cases hf : jitLookup st sym with
    | none => simp [UpdateFunctionPointersGo, hf]
    | some a =>
      cases hs : jitLookup st slot with
      | none => simp [UpdateFunctionPointersGo, hf, hs]
      | some b =>
        simp only [UpdateFunctionPointersGo, hf, hs]
        obtain ⟨h1, h2, h3, h4, h5, h6, h7, h8, h9⟩ :=
          ih { st with slotStore := mapSetIfPresent st.slotStore slot (some a),
                       trace := st.trace ++ [Event.patchSlot slot a] }
        refine ⟨h1, h2, h3, h4, h5, h6, h7, h8, ?_⟩
        intro y
        exact (h9 y).trans (mapFind_mapSetIfPresent_isSome st.slotStore slot y (some a))

theorem upGo_jitLookup (l : List (String × String)) (st : ReplState) (x : String) :
    jitLookup (UpdateFunctionPointersGo st l).2 x = jitLookup st x :=
  jitLookup_congr st (UpdateFunctionPointersGo st l).2 (upGo_preserves l st).1
    (upGo_preserves l st).2.2.2.2.2.2.2.2 x

theorem upGo_trace (l : List (String × String)) (st : ReplState) :
    ∃ evs, (UpdateFunctionPointersGo st l).2.trace = st.trace ++ evs ∧
      ∀ e ∈ evs, ∃ sym slot a, e = Event.patchSlot slot a ∧ (sym, slot) ∈ l ∧
        jitLookup st sym = some a := by
  induction l generalizing st with
  | nil =>
    exact ⟨[], by simp [UpdateFunctionPointersGo], by simp⟩
  | cons p rest ih =>
    obtain ⟨sym, slot⟩ := p
    cases hf : jitLookup st sym with
    | none =>
      exact ⟨[], by simp [UpdateFunctionPointersGo, hf], by simp⟩
    | some a =>
      cases hs : jitLookup st slot with
      | none =>
        exact ⟨[], by simp [UpdateFunctionPointersGo, hf, hs], by simp⟩
      | some b =>
        obtain ⟨evs, hev, hprop⟩ :=
          ih { st with slotStore := mapSetIfPresent st.slotStore slot (some a),
                       trace := st.trace ++ [Event.patchSlot slot a] }
        refine ⟨Event.patchSlot slot a :: evs, ?_, ?_⟩
        · simp only [UpdateFunctionPointersGo, hf, hs]
          rw [hev]
          simp
        · intro e he
          rcases List.mem_cons.mp he with he | he
          · exact ⟨sym, slot, a, he, by simp, hf⟩
          · obtain ⟨sym', slot', a', he2, hm, hl⟩ := hprop e he
            refine ⟨sym', slot', a', he2, List.mem_cons_of_mem _ hm, ?_⟩
            rw [← hl]
            exact (jitLookup_congr st
              { st with slotStore := mapSetIfPresent st.slotStore slot (some a),
                        trace := st.trace ++ [Event.patchSlot slot a] } rfl
              (fun y => mapFind_mapSetIfPresent_isSome st.slotStore slot y (some a)) sym').symm

theorem upGo_slot_stable (l : List (String × String)) (st : ReplState) (slot : String)
    (a : SymAddr)
    (hw : ∀ p ∈ l, p.2 = slot → jitLookup st p.1 = some a)
    (hv : mapFind st.slotStore slot = some (some a)) :
    mapFind (UpdateFunctionPointersGo st l).2.slotStore slot = some (some a) := by
  induction l generalizing st with
  | nil => simpa [UpdateFunctionPointersGo] using hv
  | cons p rest ih =>
    obtain ⟨sym0, sl0⟩ := p
    cases hf : jitLookup st sym0 with
    | none => simpa [UpdateFunctionPointersGo, hf] using hv
    | some a0 =>
      cases hs : jitLookup st sl0 with
      | none => simpa [UpdateFunctionPointersGo, hf, hs] using hv
      | some b0 =>
        simp only [UpdateFunctionPointersGo, hf, hs]
        set stw : ReplState :=
          { st with slotStore := mapSetIfPresent st.slotStore sl0 (some a0),
                    trace := st.trace ++ [Event.patchSlot sl0 a0] } with hstw
        have hlk : ∀ y, jitLookup stw y = jitLookup st y :=
          jitLookup_congr st stw rfl
            (fun y => mapFind_mapSetIfPresent_isSome st.slotStore sl0 y (some a0))
        apply ih stw
        · intro p hp hp2
          rw [hlk]
          exact hw p (List.mem_cons_of_mem _ hp) hp2
        · by_cases hsl : sl0 = slot
          · subst hsl
            have ha0 : a0 = a := by
              have := hw (sym0, sl0) (by simp) rfl
              rw [hf] at this
              exact Option.some_injective _ this
            subst ha0
            show mapFind (mapSetIfPresent st.slotStore sl0 (some a0)) sl0 = some (some a0)
            exact mapFind_mapSetIfPresent_self st.slotStore sl0 (some a0) (by rw [hv]; rfl)
          · show mapFind (mapSetIfPresent st.slotStore sl0 (some a0)) slot = some (some a)
            rw [mapFind_mapSetIfPresent_ne st.slotStore sl0 slot (some a0) (Ne.symm hsl)]
            exact hv

theorem upGo_success_slot (l : List (String × String)) (st st' : ReplState)
    (hrun : UpdateFunctionPointersGo st l = (true, st'))
    (hwf : ∀ p ∈ l, p.2 = slotName p.1 ∧ (mapFind st.slotStore p.2).isSome)
    (sym slot : String) (hmem : (sym, slot) ∈ l) :
    ∃ a, jitLookup st sym = some a ∧ mapFind st'.slotStore slot = some (some a) := by
  induction l generalizing st with
  | nil => simp at hmem
  | cons p rest ih =>
    obtain ⟨sym0, sl0⟩ := p
    cases hf : jitLookup st sym0 with
    | none =>
      rw [UpdateFunctionPointersGo] at hrun
      simp [hf] at hrun
    | some a0 =>
      cases hs : jitLookup st sl0 with
      | none =>
        rw [UpdateFunctionPointersGo] at hrun
        simp [hf, hs] at hrun
      | some b0 =>
        rw [UpdateFunctionPointersGo] at hrun
        simp only [hf, hs] at hrun
        set stw : ReplState :=
          { st with slotStore := mapSetIfPresent st.slotStore sl0 (some a0),
                    trace := st.trace ++ [Event.patchSlot sl0 a0] } with hstw
        have hlk : ∀ y, jitLookup stw y = jitLookup st y :=
          jitLookup_congr st stw rfl
            (fun y => mapFind_mapSetIfPresent_isSome st.slotStore sl0 y (some a0))
        rcases List.mem_cons.mp hmem with hm | hm
        · have hm1 : sym = sym0 := congrArg Prod.fst hm
          have hm2 : slot = sl0 := congrArg Prod.snd hm
          subst hm1
          subst hm2
          refine ⟨a0, hf, ?_⟩
          have hstable := upGo_slot_stable rest stw slot a0
            (by
              intro p hp hp2
              have hwfp : p.2 = slotName p.1 := (hwf p (List.mem_cons_of_mem _ hp)).1
              have hslH : slot = slotName sym := (hwf (sym, slot) (by simp)).1
              have hpk : p.1 = sym := slotName_inj (by rw [← hwfp, hp2, hslH])
              rw [hlk, hpk]
              exact hf)
            (by
              show mapFind (mapSetIfPresent st.slotStore slot (some a0)) slot = some (some a0)
              exact mapFind_mapSetIfPresent_self st.slotStore slot (some a0)
                (hwf (sym, slot) (by simp)).2)
          have h2 := congrArg Prod.snd hrun
          rw [h2] at hstable
          exact hstable
        · obtain ⟨a, ha1, ha2⟩ := ih stw hrun
            (by
              intro p hp
              refine ⟨(hwf p (List.mem_cons_of_mem _ hp)).1, ?_⟩
              show (mapFind (mapSetIfPresent st.slotStore sl0 (some a0)) p.2).isSome
              rw [mapFind_mapSetIfPresent_isSome]
              exact (hwf p (List.mem_cons_of_mem _ hp)).2)
            hm
          rw [hlk] at ha1
          exact ⟨a, ha1, ha2⟩

theorem upGo_unresolvable (l : List (String × String)) (st : ReplState) (sym : String)
    (hwf : ∀ p ∈ l, p.2 = slotName p.1)
    (hmem : ∃ sl, (sym, sl) ∈ l)
    (hnone : jitLookup st sym = none) :
    (UpdateFunctionPointersGo st l).1 = false ∧
    mapFind (UpdateFunctionPointersGo st l).2.slotStore (slotName sym)
      = mapFind st.slotStore (slotName sym) := by
  induction l generalizing st with
  | nil =>
    obtain ⟨sl, hsl⟩ := hmem
    simp at hsl
  | cons p rest ih =>
    obtain ⟨sym0, sl0⟩ := p
    cases hf : jitLookup st sym0 with
    | none => simp [UpdateFunctionPointersGo, hf]
    | some a0 =>
      have hne : sym0 ≠ sym := by
        intro h
        rw [h, hnone] at hf
        exact Option.noConfusion hf
      cases hs : jitLookup st sl0 with
      | none => simp [UpdateFunctionPointersGo, hf, hs]
      | some b0 =>
        simp only [UpdateFunctionPointersGo, hf, hs]
        set stw : ReplState :=
          { st with slotStore := mapSetIfPresent st.slotStore sl0 (some a0),
                    trace := st.trace ++ [Event.patchSlot sl0 a0] } with hstw
        have hlk : ∀ y, jitLookup stw y = jitLookup st y :=
          jitLookup_congr st stw rfl
            (fun y => mapFind_mapSetIfPresent_isSome st.slotStore sl0 y (some a0))
        have hm2 : ∃ sl, (sym, sl) ∈ rest := by
          obtain ⟨sl, hsl⟩ := hmem
          rcases List.mem_cons.mp hsl with h | h
          · exact absurd (congrArg Prod.fst h).symm hne
          · exact ⟨sl, h⟩
        have hwf2 : ∀ p ∈ rest, p.2 = slotName p.1 :=
          fun p hp => hwf p (List.mem_cons_of_mem _ hp)
        have hsl0 : sl0 = slotName sym0 := hwf (sym0, sl0) (by simp)
        have hslne : slotName sym ≠ sl0 := by
          rw [hsl0]
          intro h
          exact hne (slotName_inj h).symm
        obtain ⟨hres, hslot⟩ := ih stw hwf2 hm2 (by rw [hlk]; exact hnone)
        refine ⟨hres, ?_⟩
        rw [hslot]
        show mapFind (mapSetIfPresent st.slotStore sl0 (some a0)) (slotName sym)
          = mapFind st.slotStore (slotName sym)
        exact mapFind_mapSetIfPresent_ne st.slotStore sl0 (slotName sym) (some a0) hslne

/-! ### Lemmas about symbol removal and `RemoveRedeclarationsGo` -/

theorem jitRemoveSymbol_preserves (st : ReplState) (n : String) :
    (jitRemoveSymbol st n).2.fnPtrMap = st.fnPtrMap ∧
    (jitRemoveSymbol st n).2.declMap = st.declMap ∧
    (jitRemoveSymbol st n).2.slotStore = st.slotStore ∧
    (jitRemoveSymbol st n).2.addedModules = st.addedModules ∧
    (jitRemoveSymbol st n).2.currInputNumber = st.currInputNumber ∧
    (jitRemoveSymbol st n).2.hadError = st.hadError ∧
    (jitRemoveSymbol st n).2.isPlayground = st.isPlayground ∧
    (jitRemoveSymbol st n).2.unremovable = st.unremovable ∧
    (∀ x, x ≠ n → mapFind (jitRemoveSymbol st n).2.jitBindings x = mapFind st.jitBindings x) ∧
    (∃ evs, (jitRemoveSymbol st n).2.trace = st.trace ++ evs ∧
      ∀ e ∈ evs, e = Event.removeSym n) := by
  unfold jitRemoveSymbol
  split
  · exact ⟨rfl, rfl, rfl, rfl, rfl, rfl, rfl, rfl, fun x _ => rfl, ⟨[], by simp, by simp⟩⟩
  · split
    · exact ⟨rfl, rfl, rfl, rfl, rfl, rfl, rfl, rfl, fun x _ => rfl, ⟨[], by simp, by simp⟩⟩
    · refine ⟨rfl, rfl, rfl, rfl, rfl, rfl, rfl, rfl, ?_, ⟨[Event.removeSym n], rfl, by simp⟩⟩
      intro x hx
      exact mapFind_mapErase_ne st.jitBindings n x hx

/-! ### Lemmas about `RemoveRedeclarationsGo` -/

theorem removeStep_state (st : ReplState) (fn : IRFunc) :
    (removeStep st fn).declMap = st.declMap ∧
    (removeStep st fn).slotStore = st.slotStore ∧
    (removeStep st fn).addedModules = st.addedModules ∧
    (removeStep st fn).currInputNumber = st.currInputNumber ∧
    (removeStep st fn).hadError = st.hadError ∧
    (removeStep st fn).isPlayground = st.isPlayground ∧
    (removeStep st fn).unremovable = st.unremovable ∧
    (∀ x v, mapFind st.fnPtrMap x = some v → mapFind (removeStep st fn).fnPtrMap x = some v) ∧
    (∀ p ∈ (removeStep st fn).fnPtrMap, p ∈ st.fnPtrMap ∨ p = (fn.name, "")) ∧
    (st.fnPtrMap.Pairwise (fun p q => p.1 ≠ q.1) →
      (removeStep st fn).fnPtrMap.Pairwise (fun p q => p.1 ≠ q.1)) ∧
    (∀ x, fn.name ≠ x →
      mapFind (removeStep st fn).jitBindings x = mapFind st.jitBindings x) ∧
    (∃ evs, (removeStep st fn).trace = st.trace ++ evs ∧
      ∀ e ∈ evs, e = Event.removeSym fn.name) := by
  obtain ⟨r1, r2, r3, r4, r5, r6, r7, r8, r9, r10⟩ := jitRemoveSymbol_preserves st fn.name
  by_cases hf : (mapFind (jitRemoveSymbol st fn.name).2.fnPtrMap fn.name).isSome = true
  · have he : removeStep st fn = (jitRemoveSymbol st fn.name).2 := by
      simp only [removeStep]
      rw [if_pos hf]
    rw [he]
    exact ⟨r2, r3, r4, r5, r6, r7, r8,
      fun x v h => by rw [r1]; exact h,
      fun p hp => Or.inl (by rw [r1] at hp; exact hp),
      fun h => by rw [r1]; exact h,
      fun x hx => r9 x (Ne.symm hx), r10⟩
  · have he : removeStep st fn = { (jitRemoveSymbol st fn.name).2 with
        fnPtrMap := (jitRemoveSymbol st fn.name).2.fnPtrMap ++ [(fn.name, "")] } := by
      simp only [removeStep]
      rw [if_neg hf]
    have hffind : mapFind (jitRemoveSymbol st fn.name).2.fnPtrMap fn.name = none := by
      cases hq : mapFind (jitRemoveSymbol st fn.name).2.fnPtrMap fn.name with
      | none => rfl
      | some v => rw [hq] at hf; simp at hf
    rw [he]
    refine ⟨r2, r3, r4, r5, r6, r7, r8, ?_, ?_, ?_, fun x hx => r9 x (Ne.symm hx), r10⟩
    · intro x v h
      exact mapFind_append_left _ _ x v (by rw [r1]; exact h)
    · intro p hp
      rcases List.mem_append.mp hp with h | h
      · exact Or.inl (by rw [r1] at h; exact h)
      · simp at h
        exact Or.inr (by simp [h])
    · intro h
      rw [List.pairwise_append]
      refine ⟨by rw [r1]; exact h, by simp, ?_⟩
      intro a ha b hb
      simp at hb
      rw [hb]
      exact mapFind_none_forall _ fn.name hffind a ha

theorem removeGo_state (fns : List IRFunc) (st : ReplState) :
    (RemoveRedeclarationsGo st fns).declMap = st.declMap ∧
    (RemoveRedeclarationsGo st fns).slotStore = st.slotStore ∧
    (RemoveRedeclarationsGo st fns).addedModules = st.addedModules ∧
    (RemoveRedeclarationsGo st fns).currInputNumber = st.currInputNumber ∧
    (RemoveRedeclarationsGo st fns).hadError = st.hadError ∧
    (RemoveRedeclarationsGo st fns).isPlayground = st.isPlayground ∧
    (RemoveRedeclarationsGo st fns).unremovable = st.unremovable ∧
    (∀ x v, mapFind st.fnPtrMap x = some v →
      mapFind (RemoveRedeclarationsGo st fns).fnPtrMap x = some v) ∧
    (∀ p ∈ (RemoveRedeclarationsGo st fns).fnPtrMap, p ∈ st.fnPtrMap ∨
      ∃ fn ∈ fns, (fn.isDeclaration || !fn.hasExternalLinkage) = false ∧ p = (fn.name, "")) ∧
    (st.fnPtrMap.Pairwise (fun p q => p.1 ≠ q.1) →
      (RemoveRedeclarationsGo st fns).fnPtrMap.Pairwise (fun p q => p.1 ≠ q.1)) ∧
    (∀ x, (∀ fn ∈ fns, (fn.isDeclaration || !fn.hasExternalLinkage) = false → fn.name ≠ x) →
      mapFind (RemoveRedeclarationsGo st fns).jitBindings x = mapFind st.jitBindings x) ∧
    (∃ evs, (RemoveRedeclarationsGo st fns).trace = st.trace ++ evs ∧
      ∀ e ∈ evs, ∃ n, e = Event.removeSym n) := by
  induction fns generalizing st with
  | nil =>
    exact ⟨rfl, rfl, rfl, rfl, rfl, rfl, rfl, fun x v h => h, fun p hp => Or.inl hp,
      fun h => h, fun x _ => rfl, ⟨[], by simp [RemoveRedeclarationsGo], by simp⟩⟩
  | cons fn rest ih =>
    cases hskip : fn.isDeclaration || !fn.hasExternalLinkage with
    | true =>
      simp only [RemoveRedeclarationsGo, hskip, if_true]
      obtain ⟨i1, i2, i3, i4, i5, i6, i7, i8, i9, i10, i11, i12⟩ := ih st
      refine ⟨i1, i2, i3, i4, i5, i6, i7, i8, ?_, i10, ?_, i12⟩
      · intro p hp
        rcases i9 p hp with h | ⟨fn', hfn', hc, hn⟩
        · exact Or.inl h
        · exact Or.inr ⟨fn', List.mem_cons_of_mem _ hfn', hc, hn⟩
      · intro x hx
        exact i11 x (fun fn' hfn' hc => hx fn' (List.mem_cons_of_mem _ hfn') hc)
    | false =>
      simp only [RemoveRedeclarationsGo, hskip, Bool.false_eq_true, if_false]
      obtain ⟨r1, r2, r3, r4, r5, r6, r7, r8, r9, r10, r11, r12⟩ := removeStep_state st fn
      obtain ⟨i1, i2, i3, i4, i5, i6, i7, i8, i9, i10, i11, i12⟩ := ih (removeStep st fn)
      refine ⟨i1.trans r1, i2.trans r2, i3.trans r3, i4.trans r4, i5.trans r5,
        i6.trans r6, i7.trans r7, ?_, ?_, ?_, ?_, ?_⟩
      · intro x v h
        exact i8 x v (r8 x v h)
      · intro p hp
        rcases i9 p hp with h | ⟨fn', hfn', hc, hn⟩
        · rcases r9 p h with h2 | h2
          · exact Or.inl h2
          · exact Or.inr ⟨fn, by simp, hskip, h2⟩
        · exact Or.inr ⟨fn', List.mem_cons_of_mem _ hfn', hc, hn⟩
      · intro h
        exact i10 (r10 h)
      · intro x hx
        rw [i11 x (fun fn' hfn' hc => hx fn' (List.mem_cons_of_mem _ hfn') hc)]
        exact r11 x (hx fn (by simp) hskip)
      · obtain ⟨evs1, he1, hp1⟩ := r12
        obtain ⟨evs2, he2, hp2⟩ := i12
        refine ⟨evs1 ++ evs2, by rw [he2, he1, List.append_assoc], ?_⟩
        intro e he
        rcases List.mem_append.mp he with h | h
        · exact ⟨fn.name, hp1 e h⟩
        · exact hp2 e h

/-! ### Lemmas about `AddFunctionPointersGo` -/

theorem addStep_state (st : ReplState) (fn : IRFunc) :
    (addStep st fn).declMap = st.declMap ∧
    (addStep st fn).jitBindings = st.jitBindings ∧
    (addStep st fn).addedModules = st.addedModules ∧
    (addStep st fn).currInputNumber = st.currInputNumber ∧
    (addStep st fn).hadError = st.hadError ∧
    (addStep st fn).isPlayground = st.isPlayground ∧
    (addStep st fn).unremovable = st.unremovable ∧
    (addStep st fn).trace = st.trace ∧
    (∀ x v, mapFind st.slotStore x = some v → mapFind (addStep st fn).slotStore x = some v) ∧
    (mapFind (addStep st fn).slotStore (slotName fn.name)).isSome = true ∧
    mapFind (addStep st fn).fnPtrMap fn.name = some (slotName fn.name) ∧
    (∀ x, x ≠ fn.name → mapFind (addStep st fn).fnPtrMap x = mapFind st.fnPtrMap x) ∧
    (st.fnPtrMap.Pairwise (fun p q => p.1 ≠ q.1) →
      (addStep st fn).fnPtrMap.Pairwise (fun p q => p.1 ≠ q.1)) ∧
    (st.fnPtrMap.Pairwise (fun p q => p.1 ≠ q.1) →
      ∀ p ∈ (addStep st fn).fnPtrMap,
        (p ∈ st.fnPtrMap ∧ p.1 ≠ fn.name) ∨ p = (fn.name, slotName fn.name)) := by
  by_cases hf : (mapFind st.slotStore (slotName fn.name)).isSome = true
  · have he : addStep st fn =
        { st with fnPtrMap := mapSet st.fnPtrMap fn.name (slotName fn.name) } := by
      simp only [addStep]
      rw [if_pos hf]
    rw [he]
    refine ⟨rfl, rfl, rfl, rfl, rfl, rfl, rfl, rfl, fun x v h => h, hf,
      mapFind_mapSet_self st.fnPtrMap fn.name (slotName fn.name),
      fun x hx => mapFind_mapSet_ne st.fnPtrMap fn.name x (slotName fn.name) hx,
      fun h => pairwise_mapSet st.fnPtrMap fn.name (slotName fn.name) h,
      fun h p hp => mem_mapSet_pairwise st.fnPtrMap fn.name (slotName fn.name) h p hp⟩
  · have he : addStep st fn =
        { st with fnPtrMap := mapSet st.fnPtrMap fn.name (slotName fn.name),
                  slotStore := st.slotStore ++ [(slotName fn.name, none)] } := by
      simp only [addStep]
      rw [if_neg hf]
    have hffind : mapFind st.slotStore (slotName fn.name) = none := by
      cases hq : mapFind st.slotStore (slotName fn.name) with
      | none => rfl
      | some v => rw [hq] at hf; simp at hf
    rw [he]
    refine ⟨rfl, rfl, rfl, rfl, rfl, rfl, rfl, rfl,
      fun x v h => mapFind_append_left st.slotStore _ x v h, ?_,
      mapFind_mapSet_self st.fnPtrMap fn.name (slotName fn.name),
      fun x hx => mapFind_mapSet_ne st.fnPtrMap fn.name x (slotName fn.name) hx,
      fun h => pairwise_mapSet st.fnPtrMap fn.name (slotName fn.name) h,
      fun h p hp => mem_mapSet_pairwise st.fnPtrMap fn.name (slotName fn.name) h p hp⟩
    rw [mapFind_append_right st.slotStore _ (slotName fn.name) hffind]
    simp [mapFind]

theorem addGo_fnPtrMap_stable (fns : List IRFunc) (st : ReplState) (x : String)
    (h : mapFind st.fnPtrMap x = some (slotName x)) :
    mapFind (AddFunctionPointersGo st fns).fnPtrMap x = some (slotName x) := by
  induction fns generalizing st with
  | nil => exact h
  | cons fn rest ih =>
    cases hskip : fn.isDeclaration || !fn.hasExternalLinkage with
    | true =>
      simp only [AddFunctionPointersGo, hskip, if_true]
      exact ih st h
    | false =>
      simp only [AddFunctionPointersGo, hskip, Bool.false_eq_true, if_false]
      refine ih (addStep st fn) ?_
      obtain ⟨a1, a2, a3, a4, a5, a6, a7, a8, a9, a10, a11, a12, a13, a14⟩ :=
        addStep_state st fn
      by_cases hx : x = fn.name
      · subst hx
        exact a11
      · rw [a12 x hx]
        exact h

theorem addGo_state (fns : List IRFunc) (st : ReplState) :
    (AddFunctionPointersGo st fns).declMap = st.declMap ∧
    (AddFunctionPointersGo st fns).jitBindings = st.jitBindings ∧
    (AddFunctionPointersGo st fns).addedModules = st.addedModules ∧
    (AddFunctionPointersGo st fns).currInputNumber = st.currInputNumber ∧
    (AddFunctionPointersGo st fns).hadError = st.hadError ∧
    (AddFunctionPointersGo st fns).isPlayground = st.isPlayground ∧
    (AddFunctionPointersGo st fns).unremovable = st.unremovable ∧
    (AddFunctionPointersGo st fns).trace = st.trace ∧
    (∀ x v, mapFind st.slotStore x = some v →
      mapFind (AddFunctionPointersGo st fns).slotStore x = some v) ∧
    (st.fnPtrMap.Pairwise (fun p q => p.1 ≠ q.1) →
      (AddFunctionPointersGo st fns).fnPtrMap.Pairwise (fun p q => p.1 ≠ q.1)) ∧
    (∀ x, (∀ fn ∈ fns, (fn.isDeclaration || !fn.hasExternalLinkage) = false → fn.name ≠ x) →
      mapFind (AddFunctionPointersGo st fns).fnPtrMap x = mapFind st.fnPtrMap x) := by
  induction fns generalizing st with
  | nil =>
    exact ⟨rfl, rfl, rfl, rfl, rfl, rfl, rfl, rfl, fun x v h => h, fun h => h, fun x _ => rfl⟩
  | cons fn rest ih =>
    cases hskip : fn.isDeclaration || !fn.hasExternalLinkage with
    | true =>
      simp only [AddFunctionPointersGo, hskip, if_true]
      obtain ⟨i1, i2, i3, i4, i5, i6, i7, i8, i9, i10, i11⟩ := ih st
      exact ⟨i1, i2, i3, i4, i5, i6, i7, i8, i9, i10,
        fun x hx => i11 x (fun fn' hfn' hc => hx fn' (List.mem_cons_of_mem _ hfn') hc)⟩
    | false =>
      simp only [AddFunctionPointersGo, hskip, Bool.false_eq_true, if_false]
      obtain ⟨a1, a2, a3, a4, a5, a6, a7, a8, a9, a10, a11, a12, a13, a14⟩ :=
        addStep_state st fn
      obtain ⟨i1, i2, i3, i4, i5, i6, i7, i8, i9, i10, i11⟩ := ih (addStep st fn)
      refine ⟨i1.trans a1, i2.trans a2, i3.trans a3, i4.trans a4, i5.trans a5,
        i6.trans a6, i7.trans a7, i8.trans a8, ?_, ?_, ?_⟩
      · intro x v h
        exact i9 x v (a9 x v h)
      · intro h
        exact i10 (a13 h)
      · intro x hx
        rw [i11 x (fun fn' hfn' hc => hx fn' (List.mem_cons_of_mem _ hfn') hc)]
        exact a12 x (Ne.symm (hx fn (by simp) hskip))

theorem addGo_self (fns : List IRFunc) (st : ReplState) (x : String)
    (h : ∃ fn ∈ fns, (fn.isDeclaration || !fn.hasExternalLinkage) = false ∧ fn.name = x) :
    mapFind (AddFunctionPointersGo st fns).fnPtrMap x = some (slotName x) := by
  induction fns generalizing st with
  | nil => simp at h
  | cons fn rest ih =>
    cases hskip : fn.isDeclaration || !fn.hasExternalLinkage with
    | true =>
      simp only [AddFunctionPointersGo, hskip, if_true]
      obtain ⟨fn', hfn', hc, hn⟩ := h
      rcases List.mem_cons.mp hfn' with h2 | h2
      · rw [h2] at hc
        rw [hskip] at hc
        exact absurd hc (by simp)
      · exact ih st ⟨fn', h2, hc, hn⟩
    | false =>
      simp only [AddFunctionPointersGo, hskip, Bool.false_eq_true, if_false]
      obtain ⟨fn', hfn', hc, hn⟩ := h
      rcases List.mem_cons.mp hfn' with h2 | h2
      · refine addGo_fnPtrMap_stable rest (addStep st fn) x ?_
        obtain ⟨a1, a2, a3, a4, a5, a6, a7, a8, a9, a10, a11, a12, a13, a14⟩ :=
          addStep_state st fn
        rw [h2] at hn
        rw [← hn]
        exact a11
      · exact ih (addStep st fn) ⟨fn', h2, hc, hn⟩

theorem addGo_wf (fns : List IRFunc) (st : ReplState)
    (hnd : st.fnPtrMap.Pairwise (fun p q => p.1 ≠ q.1))
    (h : ∀ p ∈ st.fnPtrMap, (p.2 = slotName p.1 ∧ (mapFind st.slotStore p.2).isSome) ∨
      ∃ fn ∈ fns, (fn.isDeclaration || !fn.hasExternalLinkage) = false ∧ p.1 = fn.name) :
    ∀ p ∈ (AddFunctionPointersGo st fns).fnPtrMap,
      p.2 = slotName p.1 ∧ (mapFind (AddFunctionPointersGo st fns).slotStore p.2).isSome := by
  induction fns generalizing st with
  | nil =>
    intro p hp
    rcases h p hp with h2 | ⟨fn, hfn, _⟩
    · exact h2
    · simp at hfn
  | cons fn rest ih =>
    cases hskip : fn.isDeclaration || !fn.hasExternalLinkage with
    | true =>
      simp only [AddFunctionPointersGo, hskip, if_true]
      refine ih st hnd ?_
      intro p hp
      rcases h p hp with h2 | ⟨fn', hfn', hc, hn⟩
      · exact Or.inl h2
      · rcases List.mem_cons.mp hfn' with h3 | h3
        · rw [h3, hskip] at hc
          exact absurd hc (by simp)
        · exact Or.inr ⟨fn', h3, hc, hn⟩
    | false =>
      simp only [AddFunctionPointersGo, hskip, Bool.false_eq_true, if_false]
      obtain ⟨a1, a2, a3, a4, a5, a6, a7, a8, a9, a10, a11, a12, a13, a14⟩ :=
        addStep_state st fn
      refine ih (addStep st fn) (a13 hnd) ?_
      intro p hp
      rcases a14 hnd p hp with ⟨hmem, hne⟩ | hnew
      · rcases h p hmem with ⟨hw1, hw2⟩ | ⟨fn', hfn', hc, hn⟩
        · refine Or.inl ⟨hw1, ?_⟩
          obtain ⟨v, hv⟩ := Option.isSome_iff_exists.mp hw2
          rw [a9 p.2 v hv]
          rfl
        · rcases List.mem_cons.mp hfn' with h3 | h3
          · rw [h3] at hn
            exact absurd hn hne
          · exact Or.inr ⟨fn', h3, hc, hn⟩
      · refine Or.inl ?_
        rw [hnew]
        exact ⟨rfl, a10⟩

/-! ### Lemmas about module addition and the compile pipeline -/

theorem bindFns_ne (turn : Nat) (fns : List IRFunc) (bs : List (String × Impl)) (x : String)
    (h : ∀ fn ∈ fns, (fn.isDeclaration || !fn.hasExternalLinkage) = false → fn.name ≠ x) :
    mapFind (bindModuleFns turn bs fns) x = mapFind bs x := by
  induction fns generalizing bs with
  | nil => rfl
  | cons fn rest ih =>
    cases hskip : fn.isDeclaration || !fn.hasExternalLinkage with
    | true =>
      simp only [bindModuleFns, hskip, if_true]
      exact ih bs (fun fn' hfn' hc => h fn' (List.mem_cons_of_mem _ hfn') hc)
    | false =>
      simp only [bindModuleFns, hskip, Bool.false_eq_true, if_false]
      rw [ih _ (fun fn' hfn' hc => h fn' (List.mem_cons_of_mem _ hfn') hc)]
      exact mapFind_mapSet_ne bs fn.name x _ (Ne.symm (h fn (by simp) hskip))

theorem jitAddModule_state (st : ReplState) (m : LLVMModule) (ok : Bool) :
    (jitAddModule st m ok).declMap = st.declMap ∧
    (jitAddModule st m ok).fnPtrMap = st.fnPtrMap ∧
    (jitAddModule st m ok).slotStore = st.slotStore ∧
    (jitAddModule st m ok).currInputNumber = st.currInputNumber ∧
    (jitAddModule st m ok).hadError = st.hadError ∧
    (jitAddModule st m ok).isPlayground = st.isPlayground ∧
    (jitAddModule st m ok).unremovable = st.unremovable ∧
    (∃ t, (jitAddModule st m ok).addedModules = st.addedModules ++ t) ∧
    (∃ evs, (jitAddModule st m ok).trace = st.trace ++ evs ∧
      ∀ e ∈ evs, e = Event.addUnit m.turn) ∧
    (∀ x, (∀ fn ∈ m.functions, (fn.isDeclaration || !fn.hasExternalLinkage) = false → fn.name ≠ x) →
      mapFind (jitAddModule st m ok).jitBindings x = mapFind st.jitBindings x) := by
  cases ok with
  | false =>
    exact ⟨rfl, rfl, rfl, rfl, rfl, rfl, rfl, ⟨[], by simp [jitAddModule]⟩,
      ⟨[], by simp [jitAddModule], by simp⟩, fun x _ => rfl⟩
  | true =>
    refine ⟨rfl, rfl, rfl, rfl, rfl, rfl, rfl, ⟨[m], rfl⟩,
      ⟨[Event.addUnit m.turn], rfl, by simp⟩, ?_⟩
    intro x hx
    exact bindFns_ne m.turn m.functions st.jitBindings x hx

theorem pipeline_result (st : ReplState) (d : SwiftDecl) :
    compilePipeline st d =
      ((UpdateFunctionPointers (jitAddModule
        (AddFunctionPointersGo (RemoveRedeclarationsGo st (codegenModule st.currInputNumber d).functions)
          (codegenModule st.currInputNumber d).functions)
        (ReplaceFunctionCallsWithIndirectFunctionCalls
          (AddFunctionPointersGo (RemoveRedeclarationsGo st (codegenModule st.currInputNumber d).functions)
            (codegenModule st.currInputNumber d).functions)
          (codegenModule st.currInputNumber d))
        d.addModuleOk)).1,
      (UpdateFunctionPointers (jitAddModule
        (AddFunctionPointersGo (RemoveRedeclarationsGo st (codegenModule st.currInputNumber d).functions)
          (codegenModule st.currInputNumber d).functions)
        (ReplaceFunctionCallsWithIndirectFunctionCalls
          (AddFunctionPointersGo (RemoveRedeclarationsGo st (codegenModule st.currInputNumber d).functions)
            (codegenModule st.currInputNumber d).functions)
          (codegenModule st.currInputNumber d))
        d.addModuleOk)).2) := by
  simp only [compilePipeline, RemoveRedeclarationsFromJIT, AddFunctionPointers]
  split
  · rename_i h
    rw [Prod.ext_iff]
    exact ⟨h.symm, rfl⟩
  · rename_i h
    rw [Prod.ext_iff]
    refine ⟨?_, rfl⟩
    simp only [Bool.not_eq_true] at h
    exact h.symm

theorem pipeline_state (st : ReplState) (d : SwiftDecl) :
    (compilePipeline st d).2.declMap = st.declMap ∧
    (compilePipeline st d).2.currInputNumber = st.currInputNumber ∧
    (compilePipeline st d).2.hadError = st.hadError ∧
    (compilePipeline st d).2.isPlayground = st.isPlayground ∧
    (compilePipeline st d).2.unremovable = st.unremovable ∧
    (∃ t, (compilePipeline st d).2.addedModules = st.addedModules ++ t) ∧
    (wfPtrMap st → wfPtrMap (compilePipeline st d).2) := by
  rw [pipeline_result]
  simp only [UpdateFunctionPointers]
  obtain ⟨v1, v2, v3, v4, v5, v6, v7, v8, v9, v10, v11, v12⟩ :=
    removeGo_state (codegenModule st.currInputNumber d).functions st
  obtain ⟨w1, w2, w3, w4, w5, w6, w7, w8, w9, w10, w11⟩ :=
    addGo_state (codegenModule st.currInputNumber d).functions
      (RemoveRedeclarationsGo st (codegenModule st.currInputNumber d).functions)
  obtain ⟨j1, j2, j3, j4, j5, j6, j7, j8, j9, j10⟩ :=
    jitAddModule_state
      (AddFunctionPointersGo (RemoveRedeclarationsGo st (codegenModule st.currInputNumber d).functions)
        (codegenModule st.currInputNumber d).functions)
      (ReplaceFunctionCallsWithIndirectFunctionCalls
        (AddFunctionPointersGo (RemoveRedeclarationsGo st (codegenModule st.currInputNumber d).functions)
          (codegenModule st.currInputNumber d).functions)
        (codegenModule st.currInputNumber d))
      d.addModuleOk
  obtain ⟨u1, u2, u3, u4, u5, u6, u7, u8, u9⟩ :=
    upGo_preserves
      (jitAddModule
        (AddFunctionPointersGo (RemoveRedeclarationsGo st (codegenModule st.currInputNumber d).functions)
          (codegenModule st.currInputNumber d).functions)
        (ReplaceFunctionCallsWithIndirectFunctionCalls
          (AddFunctionPointersGo (RemoveRedeclarationsGo st (codegenModule st.currInputNumber d).functions)
            (codegenModule st.currInputNumber d).functions)
          (codegenModule st.currInputNumber d))
        d.addModuleOk).fnPtrMap
      (jitAddModule
        (AddFunctionPointersGo (RemoveRedeclarationsGo st (codegenModule st.currInputNumber d).functions)
          (codegenModule st.currInputNumber d).functions)
        (ReplaceFunctionCallsWithIndirectFunctionCalls
          (AddFunctionPointersGo (RemoveRedeclarationsGo st (codegenModule st.currInputNumber d).functions)
            (codegenModule st.currInputNumber d).functions)
          (codegenModule st.currInputNumber d))
        d.addModuleOk)
  refine ⟨?_, ?_, ?_, ?_, ?_, ?_, ?_⟩
  · rw [u3, j1, w1, v1]
  · rw [u5, j4, w4, v4]
  · rw [u6, j5, w5, v5]
  · rw [u7, j6, w6, v6]
  · rw [u8, j7, w7, v7]
  · obtain ⟨t, ht⟩ := j8
    exact ⟨t, by rw [u4, ht, w3, v3]⟩
  · intro hwf
    obtain ⟨hw1, hw2⟩ := hwf
    have hwf4 : wfPtrMap (AddFunctionPointersGo
        (RemoveRedeclarationsGo st (codegenModule st.currInputNumber d).functions)
        (codegenModule st.currInputNumber d).functions) := by
      constructor
      · exact w10 (v10 hw1)
      · refine addGo_wf _ _ (v10 hw1) ?_
        intro p hp
        rcases v9 p hp with h2 | ⟨fn, hfn, hc, hn⟩
        · refine Or.inl ⟨(hw2 p h2).1, ?_⟩
          rw [v2]
          exact (hw2 p h2).2
        · exact Or.inr ⟨fn, hfn, hc, congrArg Prod.fst hn⟩
    constructor
    · rw [u2, j2]
      exact hwf4.1
    · intro p hp
      rw [u2, j2] at hp
      refine ⟨(hwf4.2 p hp).1, ?_⟩
      rw [u9, j3]
      exact (hwf4.2 p hp).2

theorem update_success_core (st5 st' : ReplState) (sym : String) (impl : Impl)
    (hb : mapFind st5.jitBindings sym = some impl)
    (hfm : mapFind st5.fnPtrMap sym = some (slotName sym))
    (hwf5 : ∀ p ∈ st5.fnPtrMap, p.2 = slotName p.1 ∧ (mapFind st5.slotStore p.2).isSome)
    (hrun : UpdateFunctionPointers st5 = (true, st')) :
    mapFind st'.jitBindings sym = some impl ∧
    mapFind st'.fnPtrMap sym = some (slotName sym) ∧
    mapFind st'.slotStore (slotName sym) = some (some (SymAddr.fnAddr impl)) := by
  obtain ⟨u1, u2, u3, u4, u5, u6, u7, u8, u9⟩ := upGo_preserves st5.fnPtrMap st5
  have hsnd : (UpdateFunctionPointersGo st5 st5.fnPtrMap).2 = st' := by
    rw [show UpdateFunctionPointersGo st5 st5.fnPtrMap = UpdateFunctionPointers st5 from rfl, hrun]
  obtain ⟨a, ha1, ha2⟩ := upGo_success_slot st5.fnPtrMap st5 st' hrun hwf5
    sym (slotName sym) (mapFind_mem st5.fnPtrMap sym (slotName sym) hfm)
  have hav : a = SymAddr.fnAddr impl := by
    rw [jitLookup, hb] at ha1
    exact (Option.some_injective _ ha1).symm
  refine ⟨?_, ?_, ?_⟩
  · rw [← hsnd, u1]
    exact hb
  · rw [← hsnd, u2]
    exact hfm
  · rw [← hav]
    exact ha2

theorem compile_clean_eq (st : ReplState) (d : SwiftDecl)
    (h0 : st.hadError = false) (h1 : d.silgenError = false) (h2 : d.silPassError = false) :
    CompileSourceFileToIRAndAddToJIT st d = compilePipeline st d := by
  simp only [CompileSourceFileToIRAndAddToJIT, h0, h1, h2, Bool.false_eq_true, if_false]

theorem compile_state (st : ReplState) (d : SwiftDecl) :
    (CompileSourceFileToIRAndAddToJIT st d).2.declMap = st.declMap ∧
    (CompileSourceFileToIRAndAddToJIT st d).2.currInputNumber = st.currInputNumber ∧
    (CompileSourceFileToIRAndAddToJIT st d).2.isPlayground = st.isPlayground ∧
    (CompileSourceFileToIRAndAddToJIT st d).2.unremovable = st.unremovable ∧
    (∃ t, (CompileSourceFileToIRAndAddToJIT st d).2.addedModules = st.addedModules ++ t) ∧
    (wfPtrMap st → wfPtrMap (CompileSourceFileToIRAndAddToJIT st d).2) := by
  by_cases h1 : d.silgenError = true
  · have he : CompileSourceFileToIRAndAddToJIT st d = (true, { st with hadError := true }) := by
      simp only [CompileSourceFileToIRAndAddToJIT, h1, if_true]
    rw [he]
    exact ⟨rfl, rfl, rfl, rfl, ⟨[], by simp⟩, fun h => h⟩
  · by_cases h0 : st.hadError = true
    · have he : CompileSourceFileToIRAndAddToJIT st d = (true, st) := by
        simp only [CompileSourceFileToIRAndAddToJIT, h1, Bool.false_eq_true, if_false, h0, if_true]
      rw [he]
      exact ⟨rfl, rfl, rfl, rfl, ⟨[], by simp⟩, fun h => h⟩
    · by_cases h2 : d.silPassError = true
      · have he : CompileSourceFileToIRAndAddToJIT st d = (true, { st with hadError := true }) := by
          simp only [CompileSourceFileToIRAndAddToJIT, h1, Bool.false_eq_true, if_false, h0, h2,
            if_true]
        rw [he]
        exact ⟨rfl, rfl, rfl, rfl, ⟨[], by simp⟩, fun h => h⟩
      · have he : CompileSourceFileToIRAndAddToJIT st d = compilePipeline st d :=
          compile_clean_eq st d (Bool.not_eq_true _ ▸ h0) (Bool.not_eq_true _ ▸ h1)
            (Bool.not_eq_true _ ▸ h2)
        rw [he]
        obtain ⟨p1, p2, p3, p4, p5, p6, p7⟩ := pipeline_state st d
        exact ⟨p1, p2, p4, p5, p6, p7⟩

theorem compile_success_core (st st' : ReplState) (d : SwiftDecl)
    (h0 : st.hadError = false) (h1 : d.silgenError = false) (h2 : d.silPassError = false)
    (h3 : d.addModuleOk = true) (hfn : d.isFunc = true) (hwf : wfPtrMap st)
    (hrun : CompileSourceFileToIRAndAddToJIT st d = (true, st')) :
    mapFind st'.jitBindings d.mangled = some ⟨d.mangled, st.currInputNumber⟩ ∧
    mapFind st'.fnPtrMap d.mangled = some (slotName d.mangled) ∧
    mapFind st'.slotStore (slotName d.mangled)
      = some (some (SymAddr.fnAddr ⟨d.mangled, st.currInputNumber⟩)) := by
  rw [compile_clean_eq st d h0 h1 h2, pipeline_result] at hrun
  rw [Prod.mk.eta] at hrun
  have hfns : (codegenModule st.currInputNumber d).functions
      = [⟨d.mangled, false, true⟩, ⟨"main", false, false⟩] := by
    simp [codegenModule, hfn]
  rw [hfns] at hrun
  have hremeq : RemoveRedeclarationsGo st [⟨d.mangled, false, true⟩, ⟨"main", false, false⟩]
      = removeStep st ⟨d.mangled, false, true⟩ := by
    simp [RemoveRedeclarationsGo]
  rw [hremeq] at hrun
  have haddeq : AddFunctionPointersGo (removeStep st ⟨d.mangled, false, true⟩)
        [⟨d.mangled, false, true⟩, ⟨"main", false, false⟩]
      = addStep (removeStep st ⟨d.mangled, false, true⟩) ⟨d.mangled, false, true⟩ := by
    simp [AddFunctionPointersGo]
  rw [haddeq, h3] at hrun
  obtain ⟨r1, r2, r3, r4, r5, r6, r7, r8, r9, r10, r11, r12⟩ :=
    removeStep_state st ⟨d.mangled, false, true⟩
  obtain ⟨a1, a2, a3, a4, a5, a6, a7, a8, a9, a10, a11, a12, a13, a14⟩ :=
    addStep_state (removeStep st ⟨d.mangled, false, true⟩) ⟨d.mangled, false, true⟩
  set st4 : ReplState :=
    addStep (removeStep st ⟨d.mangled, false, true⟩) ⟨d.mangled, false, true⟩ with hst4
  set m2 : LLVMModule := ReplaceFunctionCallsWithIndirectFunctionCalls st4
    (codegenModule st.currInputNumber d) with hm2
  have hm2fns : m2.functions = [⟨d.mangled, false, true⟩, ⟨"main", false, false⟩] := by
    rw [hm2]
    show (codegenModule st.currInputNumber d).functions = _
    exact hfns
  have hm2turn : m2.turn = st.currInputNumber := by
    rw [hm2]
    rfl
  set st5 : ReplState := jitAddModule st4 m2 true with hst5
  have hb5js : st5.jitBindings
      = bindModuleFns m2.turn st4.jitBindings m2.functions := by
    rw [hst5]
    rfl
  have hbind : st5.jitBindings
      = mapSet st4.jitBindings d.mangled ⟨d.mangled, st.currInputNumber⟩ := by
    rw [hb5js, hm2fns, hm2turn]
    simp [bindModuleFns]
  have hb5 : mapFind st5.jitBindings d.mangled = some ⟨d.mangled, st.currInputNumber⟩ := by
    rw [hbind]
    exact mapFind_mapSet_self _ _ _
  have h5fm : st5.fnPtrMap = st4.fnPtrMap := by
    rw [hst5]
    rfl
  have h5ss : st5.slotStore = st4.slotStore := by
    rw [hst5]
    rfl
  have hfm5 : mapFind st5.fnPtrMap d.mangled = some (slotName d.mangled) := by
    rw [h5fm]
    exact a11
  have hwf5 : ∀ p ∈ st5.fnPtrMap, p.2 = slotName p.1 ∧ (mapFind st5.slotStore p.2).isSome := by
    rw [h5fm]
    intro p hp
    rcases a14 (r10 hwf.1) p hp with ⟨hmem, hne⟩ | hnew
    · rcases r9 p hmem with hmem2 | hemp
      · obtain ⟨hw1, hw2⟩ := hwf.2 p hmem2
        refine ⟨hw1, ?_⟩
        rw [h5ss]
        obtain ⟨v, hv⟩ := Option.isSome_iff_exists.mp (by rw [← r2] at hw2; exact hw2)
        rw [a9 p.2 v hv]
        rfl
      · exact absurd (congrArg Prod.fst hemp) hne
    · rw [hnew]
      refine ⟨rfl, ?_⟩
      rw [h5ss]
      exact a10
  exact update_success_core st5 st' d.mangled ⟨d.mangled, st.currInputNumber⟩
    hb5 hfm5 hwf5 hrun

theorem jitLookup_of_binding (st : ReplState) (x : String) (impl : Impl)
    (h : mapFind st.jitBindings x = some impl) :
    jitLookup st x = some (SymAddr.fnAddr impl) := by
  unfold jitLookup
  rw [h]

theorem removeAdd_wf (st : ReplState) (fns : List IRFunc) (hwf : wfPtrMap st) :
    wfPtrMap (AddFunctionPointersGo (RemoveRedeclarationsGo st fns) fns) := by
  obtain ⟨v1, v2, v3, v4, v5, v6, v7, v8, v9, v10, v11, v12⟩ := removeGo_state fns st
  obtain ⟨w1, w2, w3, w4, w5, w6, w7, w8, w9, w10, w11⟩ :=
    addGo_state fns (RemoveRedeclarationsGo st fns)
  constructor
  · exact w10 (v10 hwf.1)
  · refine addGo_wf fns (RemoveRedeclarationsGo st fns) (v10 hwf.1) ?_
    intro p hp
    rcases v9 p hp with h2 | ⟨fn, hfn, hc, hn⟩
    · refine Or.inl ⟨(hwf.2 p h2).1, ?_⟩
      rw [v2]
      exact (hwf.2 p h2).2
    · exact Or.inr ⟨fn, hfn, hc, congrArg Prod.fst hn⟩

theorem codegen_names_ne (st : ReplState) (d : SwiftDecl) (m : String)
    (hne : d.linkName ≠ m) :
    ∀ fn ∈ (codegenModule st.currInputNumber d).functions,
      (fn.isDeclaration || !fn.hasExternalLinkage) = false → fn.name ≠ m := by
  intro fn hfn hc
  rcases List.mem_append.mp hfn with h | h
  · cases hfd : d.isFunc with
    | true =>
      rw [hfd] at h
      simp at h
      rw [h]
      show d.mangled ≠ m
      rw [← show d.linkName = d.mangled from by simp [SwiftDecl.linkName, hfd]]
      exact hne
    | false =>
      rw [hfd] at h
      simp at h
  · simp at h
    rw [h] at hc
    simp at hc

theorem pipeline_preserves_slotInv (st st' : ReplState) (d : SwiftDecl) (m : String)
    (impl : Impl) (hne : d.linkName ≠ m)
    (hinvb : mapFind st.jitBindings m = some impl)
    (hinvs : mapFind st.slotStore (slotName m) = some (some (SymAddr.fnAddr impl)))
    (hwf : wfPtrMap st)
    (hrun : compilePipeline st d = (true, st')) :
    mapFind st'.jitBindings m = some impl ∧
    mapFind st'.slotStore (slotName m) = some (some (SymAddr.fnAddr impl)) := by
  rw [pipeline_result, Prod.mk.eta] at hrun
  have hnames := codegen_names_ne st d m hne
  obtain ⟨v1, v2, v3, v4, v5, v6, v7, v8, v9, v10, v11, v12⟩ :=
    removeGo_state (codegenModule st.currInputNumber d).functions st
  obtain ⟨w1, w2, w3, w4, w5, w6, w7, w8, w9, w10, w11⟩ :=
    addGo_state (codegenModule st.currInputNumber d).functions
      (RemoveRedeclarationsGo st (codegenModule st.currInputNumber d).functions)
  obtain ⟨j1, j2, j3, j4, j5, j6, j7, j8, j9, j10⟩ :=
    jitAddModule_state
      (AddFunctionPointersGo
        (RemoveRedeclarationsGo st (codegenModule st.currInputNumber d).functions)
        (codegenModule st.currInputNumber d).functions)
      (ReplaceFunctionCallsWithIndirectFunctionCalls
        (AddFunctionPointersGo
          (RemoveRedeclarationsGo st (codegenModule st.currInputNumber d).functions)
          (codegenModule st.currInputNumber d).functions)
        (codegenModule st.currInputNumber d))
      d.addModuleOk
  have hb5 : mapFind (jitAddModule
      (AddFunctionPointersGo
        (RemoveRedeclarationsGo st (codegenModule st.currInputNumber d).functions)
        (codegenModule st.currInputNumber d).functions)
      (ReplaceFunctionCallsWithIndirectFunctionCalls
        (AddFunctionPointersGo
          (RemoveRedeclarationsGo st (codegenModule st.currInputNumber d).functions)
          (codegenModule st.currInputNumber d).functions)
        (codegenModule st.currInputNumber d))
      d.addModuleOk).jitBindings m = some impl := by
    rw [j10 m (fun fn hfn hc => hnames fn hfn hc), w2, v11 m hnames]
    exact hinvb
  have hs5 : mapFind (jitAddModule
      (AddFunctionPointersGo
        (RemoveRedeclarationsGo st (codegenModule st.currInputNumber d).functions)
        (codegenModule st.currInputNumber d).functions)
      (ReplaceFunctionCallsWithIndirectFunctionCalls
        (AddFunctionPointersGo
          (RemoveRedeclarationsGo st (codegenModule st.currInputNumber d).functions)
          (codegenModule st.currInputNumber d).functions)
        (codegenModule st.currInputNumber d))
      d.addModuleOk).slotStore (slotName m) = some (some (SymAddr.fnAddr impl)) := by
    rw [j3]
    refine w9 (slotName m) (some (SymAddr.fnAddr impl)) ?_
    rw [v2]
    exact hinvs
  have hwf5 : ∀ p ∈ (jitAddModule
      (AddFunctionPointersGo
        (RemoveRedeclarationsGo st (codegenModule st.currInputNumber d).functions)
        (codegenModule st.currInputNumber d).functions)
      (ReplaceFunctionCallsWithIndirectFunctionCalls
        (AddFunctionPointersGo
          (RemoveRedeclarationsGo st (codegenModule st.currInputNumber d).functions)
          (codegenModule st.currInputNumber d).functions)
        (codegenModule st.currInputNumber d))
      d.addModuleOk).fnPtrMap,
      p.2 = slotName p.1 := by
    intro p hp
    rw [j2] at hp
    exact ((removeAdd_wf st (codegenModule st.currInputNumber d).functions hwf).2 p hp).1
  constructor
  · have hu := (upGo_preserves (jitAddModule
      (AddFunctionPointersGo
        (RemoveRedeclarationsGo st (codegenModule st.currInputNumber d).functions)
        (codegenModule st.currInputNumber d).functions)
      (ReplaceFunctionCallsWithIndirectFunctionCalls
        (AddFunctionPointersGo
          (RemoveRedeclarationsGo st (codegenModule st.currInputNumber d).functions)
          (codegenModule st.currInputNumber d).functions)
        (codegenModule st.currInputNumber d))
      d.addModuleOk).fnPtrMap
      (jitAddModule
      (AddFunctionPointersGo
        (RemoveRedeclarationsGo st (codegenModule st.currInputNumber d).functions)
        (codegenModule st.currInputNumber d).functions)
      (ReplaceFunctionCallsWithIndirectFunctionCalls
        (AddFunctionPointersGo
          (RemoveRedeclarationsGo st (codegenModule st.currInputNumber d).functions)
          (codegenModule st.currInputNumber d).functions)
        (codegenModule st.currInputNumber d))
      d.addModuleOk)).1
    have hsnd := congrArg Prod.snd hrun
    simp only [UpdateFunctionPointers] at hsnd
    rw [← hsnd, hu]
    exact hb5
  · have hsnd := congrArg Prod.snd hrun
    simp only [UpdateFunctionPointers] at hsnd
    rw [← hsnd]
    refine upGo_slot_stable _ _ (slotName m) (SymAddr.fnAddr impl) ?_ hs5
    intro p hp hp2
    have hpm : p.1 = m := slotName_inj (by rw [← hwf5 p hp, hp2])
    rw [hpm]
    exact jitLookup_of_binding _ m impl hb5

theorem compile_hadError_clean (st : ReplState) (d : SwiftDecl)
    (h0 : st.hadError = false) (h1 : d.silgenError = false) (h2 : d.silPassError = false) :
    (CompileSourceFileToIRAndAddToJIT st d).2.hadError = false := by
  rw [compile_clean_eq st d h0 h1 h2, (pipeline_state st d).2.2.1]
  exact h0

theorem compile_preserves_slotInv (st st' : ReplState) (d : SwiftDecl) (m : String)
    (impl : Impl) (hne : d.linkName ≠ m)
    (hinvb : mapFind st.jitBindings m = some impl)
    (hinvs : mapFind st.slotStore (slotName m) = some (some (SymAddr.fnAddr impl)))
    (hwf : wfPtrMap st)
    (hrun : CompileSourceFileToIRAndAddToJIT st d = (true, st')) :
    mapFind st'.jitBindings m = some impl ∧
    mapFind st'.slotStore (slotName m) = some (some (SymAddr.fnAddr impl)) := by
  by_cases h1 : d.silgenError = true
  · have he : CompileSourceFileToIRAndAddToJIT st d = (true, { st with hadError := true }) := by
      simp only [CompileSourceFileToIRAndAddToJIT, h1, if_true]
    rw [he] at hrun
    injection hrun with hfst hsnd
    subst hsnd
    exact ⟨hinvb, hinvs⟩
  · by_cases h0 : st.hadError = true
    · have he : CompileSourceFileToIRAndAddToJIT st d = (true, st) := by
        simp only [CompileSourceFileToIRAndAddToJIT, h1, Bool.false_eq_true, if_false, h0,
          if_true]
      rw [he] at hrun
      injection hrun with hfst hsnd
      subst hsnd
      exact ⟨hinvb, hinvs⟩
    · by_cases h2 : d.silPassError = true
      · have he : CompileSourceFileToIRAndAddToJIT st d
            = (true, { st with hadError := true }) := by
          simp only [CompileSourceFileToIRAndAddToJIT, h1, Bool.false_eq_true, if_false, h0, h2,
            if_true]
        rw [he] at hrun
        injection hrun with hfst hsnd
        subst hsnd
        exact ⟨hinvb, hinvs⟩
      · rw [compile_clean_eq st d (Bool.not_eq_true _ ▸ h0) (Bool.not_eq_true _ ▸ h1)
          (Bool.not_eq_true _ ▸ h2)] at hrun
        exact pipeline_preserves_slotInv st st' d m impl hne hinvb hinvs hwf hrun

/-! ### Lemmas about `ProcessDecls` -/

theorem processDecls_prefix_completed (xs ys : List SwiftDecl) (st st' : ReplState)
    (mn : String) (r r2 : Option String)
    (h : ProcessDecls st mn r (xs ++ ys) = (TurnExit.completed r2, st')) :
    ∃ r1 st1, ProcessDecls st mn r xs = (TurnExit.completed r1, st1) ∧
      ProcessDecls st1 mn r1 ys = (TurnExit.completed r2, st') := by
  induction xs generalizing st r with
  | nil => exact ⟨r, st, rfl, h⟩
  | cons d rest ih =>
    rw [List.cons_append] at h
    cases hv : validateDecl st d with
    | reject n =>
      simp only [ProcessDecls, hv] at h
      simp at h
    | accept =>
      simp only [ProcessDecls, hv] at h
      split at h
      · rename_i hc
        obtain ⟨r1, st1, h1, h2⟩ := ih _ _ h
        refine ⟨r1, st1, ?_, h2⟩
        simp only [ProcessDecls, hv]
        rw [if_pos hc]
        exact h1
      · simp at h

theorem processDecls_state (ds : List SwiftDecl) (st : ReplState) (mn : String)
    (r : Option String) :
    (ProcessDecls st mn r ds).2.currInputNumber = st.currInputNumber ∧
    (ProcessDecls st mn r ds).2.isPlayground = st.isPlayground ∧
    (ProcessDecls st mn r ds).2.unremovable = st.unremovable ∧
    (∃ t, (ProcessDecls st mn r ds).2.addedModules = st.addedModules ++ t) ∧
    (wfPtrMap st → wfPtrMap (ProcessDecls st mn r ds).2) := by
  induction ds generalizing st r with
  | nil => exact ⟨rfl, rfl, rfl, ⟨[], by simp [ProcessDecls]⟩, fun h => h⟩
  | cons d rest ih =>
    cases hv : validateDecl st d with
    | reject n =>
      have he : ProcessDecls st mn r (d :: rest) = (TurnExit.abortedInvalidRedecl,
          { st with trace := st.trace ++ [Event.printInvalidRedecl n] }) := by
        simp only [ProcessDecls, hv]
      rw [he]
      exact ⟨rfl, rfl, rfl, ⟨[], by simp⟩, fun h => h⟩
    | accept =>
      simp only [ProcessDecls, hv]
      obtain ⟨c1, c2, c3, c4, c5, c6⟩ := compile_state
        { st with declMap := (mapSet (mapSet st.declMap d.unmangled d.isFunc) d.linkName d.isFunc) } d
      split
      · obtain ⟨i1, i2, i3, i4, i5⟩ := ih _ _
        refine ⟨i1.trans (c2.trans rfl), i2.trans (c3.trans rfl), i3.trans (c4.trans rfl),
          ?_, ?_⟩
        · obtain ⟨t1, ht1⟩ := c5
          obtain ⟨t2, ht2⟩ := i4
          exact ⟨t1 ++ t2, by rw [ht2, ht1, List.append_assoc]⟩
        · intro hwf
          exact i5 (c6 hwf)
      · exact ⟨c2.trans rfl, c3.trans rfl, c4.trans rfl, c5, fun hwf => c6 hwf⟩

theorem processDecls_hadError (ds : List SwiftDecl) (st : ReplState) (mn : String)
    (r : Option String) (h0 : st.hadError = false)
    (hclean : ∀ d ∈ ds, d.silgenError = false ∧ d.silPassError = false) :
    (ProcessDecls st mn r ds).2.hadError = false := by
  induction ds generalizing st r with
  | nil => exact h0
  | cons d rest ih =>
    cases hv : validateDecl st d with
    | reject n =>
      simp only [ProcessDecls, hv]
      exact h0
    | accept =>
      simp only [ProcessDecls, hv]
      have hcd := compile_hadError_clean
        { st with declMap := (mapSet (mapSet st.declMap d.unmangled d.isFunc) d.linkName d.isFunc) }
        d h0 (hclean d (by simp)).1 (hclean d (by simp)).2
      split
      · exact ih _ _ hcd (fun d' hd' => hclean d' (List.mem_cons_of_mem _ hd'))
      · exact hcd

theorem processDecls_slotInv (ds : List SwiftDecl) (st st' : ReplState) (mn : String)
    (r r2 : Option String) (m : String) (impl : Impl)
    (h0 : st.hadError = false)
    (hclean : ∀ d ∈ ds, d.silgenError = false ∧ d.silPassError = false)
    (hne : ∀ d ∈ ds, d.linkName ≠ m)
    (hwf : wfPtrMap st)
    (hinvb : mapFind st.jitBindings m = some impl)
    (hinvs : mapFind st.slotStore (slotName m) = some (some (SymAddr.fnAddr impl)))
    (hrun : ProcessDecls st mn r ds = (TurnExit.completed r2, st')) :
    mapFind st'.jitBindings m = some impl ∧
    mapFind st'.slotStore (slotName m) = some (some (SymAddr.fnAddr impl)) := by
  induction ds generalizing st r with
  | nil =>
    simp only [ProcessDecls] at hrun
    injection hrun with h1 h2
    subst h2
    exact ⟨hinvb, hinvs⟩
  | cons d rest ih =>
    cases hv : validateDecl st d with
    | reject n =>
      simp only [ProcessDecls, hv] at hrun
      simp at hrun
    | accept =>
      simp only [ProcessDecls, hv] at hrun
      split at hrun
      · rename_i hc
        have hcomp : CompileSourceFileToIRAndAddToJIT
            { st with declMap := (mapSet (mapSet st.declMap d.unmangled d.isFunc)
              d.linkName d.isFunc) } d
            = (true, (CompileSourceFileToIRAndAddToJIT
              { st with declMap := (mapSet (mapSet st.declMap d.unmangled d.isFunc)
                d.linkName d.isFunc) } d).2) := by
          rw [Prod.ext_iff]
          exact ⟨hc, rfl⟩
        obtain ⟨hb2, hs2⟩ := compile_preserves_slotInv
          { st with declMap := (mapSet (mapSet st.declMap d.unmangled d.isFunc)
            d.linkName d.isFunc) }
          _ d m impl (hne d (by simp)) hinvb hinvs hwf hcomp
        obtain ⟨c1, c2, c3, c4, c5, c6⟩ := compile_state
          { st with declMap := (mapSet (mapSet st.declMap d.unmangled d.isFunc)
            d.linkName d.isFunc) } d
        have hcd := compile_hadError_clean
          { st with declMap := (mapSet (mapSet st.declMap d.unmangled d.isFunc)
            d.linkName d.isFunc) }
          d h0 (hclean d (by simp)).1 (hclean d (by simp)).2
        exact ih _ _ hcd (fun d' hd' => hclean d' (List.mem_cons_of_mem _ hd'))
          (fun d' hd' => hne d' (List.mem_cons_of_mem _ hd')) (c6 hwf) hb2 hs2 hrun
      · simp at hrun

/-! ### Lemmas about `ExecuteSwift` -/

theorem executeSwift_clean_eq (st : ReplState) (input : TurnInput)
    (hexit : IsExitString input.line = false)
    (hpe : input.parseError = false) (hnb : input.nameBindError = false)
    (htc : input.typeCheckError = false) :
    ExecuteSwift st input =
      (match ProcessDecls { st with currInputNumber := st.currInputNumber + 1, hadError := false }
          (turnModuleName (st.currInputNumber + 1)) none input.decls with
       | (TurnExit.abortedInvalidRedecl, st4) => (true, st4)
       | (TurnExit.abortedCompileFailure, st4) => (true, st4)
       | (TurnExit.completed none, st4) => (true, st4)
       | (TurnExit.completed (some resSym), st4) =>
         (match jitLookup st4 resSym with
          | some _ => (true, { st4 with trace := st4.trace ++ [Event.invokeEntry resSym] })
          | none => (false, st4))) := by
  simp only [ExecuteSwift, hexit, hpe, hnb, htc, Bool.false_eq_true, if_false]

theorem compile_fnPtrMap_stable (st : ReplState) (d : SwiftDecl) (x : String)
    (h : mapFind st.fnPtrMap x = some (slotName x)) :
    mapFind (CompileSourceFileToIRAndAddToJIT st d).2.fnPtrMap x = some (slotName x) := by
  by_cases h1 : d.silgenError = true
  · have he : CompileSourceFileToIRAndAddToJIT st d = (true, { st with hadError := true }) := by
      simp only [CompileSourceFileToIRAndAddToJIT, h1, if_true]
    rw [he]
    exact h
  · by_cases h0 : st.hadError = true
    · have he : CompileSourceFileToIRAndAddToJIT st d = (true, st) := by
        simp only [CompileSourceFileToIRAndAddToJIT, h1, Bool.false_eq_true, if_false, h0,
          if_true]
      rw [he]
      exact h
    · by_cases h2 : d.silPassError = true
      · have he : CompileSourceFileToIRAndAddToJIT st d
            = (true, { st with hadError := true }) := by
          simp only [CompileSourceFileToIRAndAddToJIT, h1, Bool.false_eq_true, if_false, h0, h2,
            if_true]
        rw [he]
        exact h
      · rw [compile_clean_eq st d (Bool.not_eq_true _ ▸ h0) (Bool.not_eq_true _ ▸ h1)
          (Bool.not_eq_true _ ▸ h2), pipeline_result]
        simp only [UpdateFunctionPointers]
        rw [(upGo_preserves _ _).2.1]
        rw [(jitAddModule_state _ _ _).2.1]
        refine addGo_fnPtrMap_stable _ _ x ?_
        exact (removeGo_state _ st).2.2.2.2.2.2.2.1 x (slotName x) h

theorem processDecls_fnPtrMap_stable (ds : List SwiftDecl) (st : ReplState) (mn : String)
    (r : Option String) (x : String)
    (h : mapFind st.fnPtrMap x = some (slotName x)) :
    mapFind (ProcessDecls st mn r ds).2.fnPtrMap x = some (slotName x) := by
  induction ds generalizing st r with
  | nil => exact h
  | cons d rest ih =>
    cases hv : validateDecl st d with
    | reject n =>
      have he : ProcessDecls st mn r (d :: rest) = (TurnExit.abortedInvalidRedecl,
          { st with trace := st.trace ++ [Event.printInvalidRedecl n] }) := by
        simp only [ProcessDecls, hv]
      rw [he]
      exact h
    | accept =>
      simp only [ProcessDecls, hv]
      split
      · exact ih _ _ (compile_fnPtrMap_stable _ d x h)
      · exact compile_fnPtrMap_stable _ d x h

theorem processDecls_redefine (d : SwiftDecl) (post : List SwiftDecl) (st1 stF : ReplState)
    (mn : String) (r1 r2 : Option String)
    (h0 : st1.hadError = false)
    (hfn : d.isFunc = true)
    (hd1 : d.silgenError = false) (hd2 : d.silPassError = false) (hd3 : d.addModuleOk = true)
    (hclean : ∀ d' ∈ post, d'.silgenError = false ∧ d'.silPassError = false)
    (hlast : ∀ d' ∈ post, d'.linkName ≠ d.mangled)
    (hwf : wfPtrMap st1)
    (hrun : ProcessDecls st1 mn r1 (d :: post) = (TurnExit.completed r2, stF)) :
    mapFind stF.jitBindings d.mangled = some ⟨d.mangled, st1.currInputNumber⟩ ∧
    mapFind stF.fnPtrMap d.mangled = some (slotName d.mangled) ∧
    mapFind stF.slotStore (slotName d.mangled)
      = some (some (SymAddr.fnAddr ⟨d.mangled, st1.currInputNumber⟩)) := by
  cases hv : validateDecl st1 d with
  | reject n =>
    simp only [ProcessDecls, hv] at hrun
    simp at hrun
  | accept =>
    simp only [ProcessDecls, hv] at hrun
    split at hrun
    · rename_i hc
      have hcomp : CompileSourceFileToIRAndAddToJIT
          { st1 with declMap := (mapSet (mapSet st1.declMap d.unmangled d.isFunc)
            d.linkName d.isFunc) } d
          = (true, (CompileSourceFileToIRAndAddToJIT
            { st1 with declMap := (mapSet (mapSet st1.declMap d.unmangled d.isFunc)
              d.linkName d.isFunc) } d).2) := by
        rw [Prod.ext_iff]
        exact ⟨hc, rfl⟩
      obtain ⟨sb, sf, ss⟩ := compile_success_core
        { st1 with declMap := (mapSet (mapSet st1.declMap d.unmangled d.isFunc)
          d.linkName d.isFunc) }
        _ d h0 hd1 hd2 hd3 hfn hwf hcomp
      obtain ⟨c1, c2, c3, c4, c5, c6⟩ := compile_state
        { st1 with declMap := (mapSet (mapSet st1.declMap d.unmangled d.isFunc)
          d.linkName d.isFunc) } d
      have hcd := compile_hadError_clean
        { st1 with declMap := (mapSet (mapSet st1.declMap d.unmangled d.isFunc)
          d.linkName d.isFunc) } d h0 hd1 hd2
      obtain ⟨hb, hs⟩ := processDecls_slotInv post _ stF mn _ r2 d.mangled
        ⟨d.mangled, st1.currInputNumber⟩ hcd hclean hlast (c6 hwf) sb ss hrun
      refine ⟨hb, ?_, hs⟩
      have := processDecls_fnPtrMap_stable post
        (CompileSourceFileToIRAndAddToJIT
          { st1 with declMap := (mapSet (mapSet st1.declMap d.unmangled d.isFunc)
            d.linkName d.isFunc) } d).2 mn
        (if d.isFunc && (d.unmangled == mn) then some d.mangled else r1) d.mangled sf
      rw [hrun] at this
      exact this
    · simp at hrun

/-! ### Claim theorems -/

/-- C1: for every sequence of turns (any state `st` reachable from them), if a
function `f` (link symbol `d.mangled`) is redefined by declaration `d` in the
next turn and that turn completes, then f's indirection slot holds the address
of the newest (this turn's) implementation, the Indirection Table still maps f
to that slot, any call rewritten to load through f's slot — as every call to f
compiled into any earlier or later unit is — executes the turn-(k+1) body, and
no previously linked unit was recompiled or modified (the module list is only
appended to). -/
theorem redefinition_retargets_linked_calls
    (st st' stF : ReplState) (input : TurnInput) (d : SwiftDecl)
    (pre post : List SwiftDecl) (r2 : Option String)
    (hwf : wfPtrMap st)
    (hexit : IsExitString input.line = false)
    (hpe : input.parseError = false) (hnb : input.nameBindError = false)
    (htc : input.typeCheckError = false)
    (hdecls : input.decls = pre ++ d :: post)
    (hfn : d.isFunc = true)
    (hclean : ∀ d' ∈ input.decls,
      d'.silgenError = false ∧ d'.silPassError = false ∧ d'.addModuleOk = true)
    (hlast : ∀ d' ∈ post, d'.linkName ≠ d.mangled)
    (hcomp : ProcessDecls { st with currInputNumber := st.currInputNumber + 1, hadError := false }
        (turnModuleName (st.currInputNumber + 1)) none input.decls
      = (TurnExit.completed r2, stF))
    (hrun : ExecuteSwift st input = (true, st')) :
    mapFind st'.slotStore (slotName d.mangled)
      = some (some (SymAddr.fnAddr ⟨d.mangled, st.currInputNumber + 1⟩)) ∧
    runCallSite st' (CallSite.throughSlot (slotName d.mangled))
      = some (SymAddr.fnAddr ⟨d.mangled, st.currInputNumber + 1⟩) ∧
    mapFind st'.fnPtrMap d.mangled = some (slotName d.mangled) ∧
    (∀ mod, CallSite.direct d.mangled ∈ mod.calls →
      CallSite.throughSlot (slotName d.mangled)
        ∈ (ReplaceFunctionCallsWithIndirectFunctionCalls st' mod).calls) ∧
    (∃ t, st'.addedModules = st.addedModules ++ t) := by
  have hmodF : ∃ t, stF.addedModules = st.addedModules ++ t := by
    have hmod := (processDecls_state input.decls
      { st with currInputNumber := st.currInputNumber + 1, hadError := false }
      (turnModuleName (st.currInputNumber + 1)) none).2.2.2.1
    rw [hcomp] at hmod
    exact hmod
  rw [hdecls] at hcomp
  obtain ⟨r1, st1, hpre, hrest⟩ := processDecls_prefix_completed pre (d :: post) _ stF _ none
    r2 hcomp
  have hcleanPre : ∀ d' ∈ pre, d'.silgenError = false ∧ d'.silPassError = false := by
    intro d' hd'
    have := hclean d' (by rw [hdecls]; exact List.mem_append_left _ hd')
    exact ⟨this.1, this.2.1⟩
  have h1err : st1.hadError = false := by
    have h := processDecls_hadError pre
      { st with currInputNumber := st.currInputNumber + 1, hadError := false }
      (turnModuleName (st.currInputNumber + 1)) none rfl hcleanPre
    rw [hpre] at h
    exact h
  have hwf1 : wfPtrMap st1 := by
    have h := (processDecls_state pre
      { st with currInputNumber := st.currInputNumber + 1, hadError := false }
      (turnModuleName (st.currInputNumber + 1)) none).2.2.2.2 hwf
    rw [hpre] at h
    exact h
  have hIN : st1.currInputNumber = st.currInputNumber + 1 := by
    have h := (processDecls_state pre
      { st with currInputNumber := st.currInputNumber + 1, hadError := false }
      (turnModuleName (st.currInputNumber + 1)) none).1
    rw [hpre] at h
    exact h
  have hdmem : d ∈ input.decls := by
    rw [hdecls]
    exact List.mem_append_right _ (by simp)
  have hcleanPost : ∀ d' ∈ post, d'.silgenError = false ∧ d'.silPassError = false := by
    intro d' hd'
    have hmem : d' ∈ input.decls := by
      rw [hdecls]
      exact List.mem_append_right _ (List.mem_cons_of_mem _ hd')
    exact ⟨(hclean d' hmem).1, (hclean d' hmem).2.1⟩
  obtain ⟨hb, hf2, hs⟩ := processDecls_redefine d post st1 stF
    (turnModuleName (st.currInputNumber + 1)) r1 r2 h1err hfn
    (hclean d hdmem).1 (hclean d hdmem).2.1 (hclean d hdmem).2.2
    hcleanPost hlast hwf1 hrest
  rw [hIN] at hb hs
  rw [executeSwift_clean_eq st input hexit hpe hnb htc, hdecls, hcomp] at hrun
  have hcore : mapFind stF.slotStore (slotName d.mangled)
        = some (some (SymAddr.fnAddr ⟨d.mangled, st.currInputNumber + 1⟩)) ∧
      runCallSite stF (CallSite.throughSlot (slotName d.mangled))
        = some (SymAddr.fnAddr ⟨d.mangled, st.currInputNumber + 1⟩) ∧
      mapFind stF.fnPtrMap d.mangled = some (slotName d.mangled) ∧
      (∀ mod, CallSite.direct d.mangled ∈ mod.calls →
        CallSite.throughSlot (slotName d.mangled)
          ∈ (ReplaceFunctionCallsWithIndirectFunctionCalls stF mod).calls) := by
    refine ⟨hs, ?_, hf2, ?_⟩
    · simp only [runCallSite]
      rw [hs]
    · intro mod hcall
      simp only [ReplaceFunctionCallsWithIndirectFunctionCalls]
      refine List.mem_map.mpr ⟨CallSite.direct d.mangled, hcall, ?_⟩
      simp [hf2, slotName_ne_empty d.mangled]
  cases r2 with
  | none =>
    have heq : ((true, stF) : Bool × ReplState) = (true, st') := hrun
    injection heq with h1 h2
    subst h2
    exact ⟨hcore.1, hcore.2.1, hcore.2.2.1, hcore.2.2.2, hmodF⟩
  | some resSym =>
    have hrun2 : (match jitLookup stF resSym with
        | some _ => (true, { stF with trace := stF.trace ++ [Event.invokeEntry resSym] })
        | none => ((false, stF) : Bool × ReplState)) = (true, st') := hrun
    cases hjl : jitLookup stF resSym with
    | none =>
      rw [hjl] at hrun2
      have heq : ((false, stF) : Bool × ReplState) = (true, st') := hrun2
      injection heq with h1 h2
      simp at h1
    | some a =>
      rw [hjl] at hrun2
      have heq : ((true, { stF with trace := stF.trace ++ [Event.invokeEntry resSym] })
          : Bool × ReplState) = (true, st') := hrun2
      injection heq with h1 h2
      subst h2
      exact ⟨hcore.1, hcore.2.1, hcore.2.2.1, hcore.2.2.2, hmodF⟩

theorem redefinition_retargets_linked_calls_witness :
    mapFind (ExecuteSwift stAfterTurn1 inputRedefineF).2.slotStore (slotName "$f")
      = some (some (SymAddr.fnAddr ⟨"$f", 2⟩)) ∧
    runCallSite (ExecuteSwift stAfterTurn1 inputRedefineF).2
        (CallSite.throughSlot (slotName "$f"))
      = some (SymAddr.fnAddr ⟨"$f", 2⟩) ∧
    mapFind (ExecuteSwift stAfterTurn1 inputRedefineF).2.fnPtrMap "$f"
      = some (slotName "$f") ∧
    (∀ mod, CallSite.direct "$f" ∈ mod.calls →
      CallSite.throughSlot (slotName "$f")
        ∈ (ReplaceFunctionCallsWithIndirectFunctionCalls
            (ExecuteSwift stAfterTurn1 inputRedefineF).2 mod).calls) ∧
    (∃ t, (ExecuteSwift stAfterTurn1 inputRedefineF).2.addedModules
      = stAfterTurn1.addedModules ++ t) :=
  redefinition_retargets_linked_calls stAfterTurn1
    (ExecuteSwift stAfterTurn1 inputRedefineF).2
    (ProcessDecls { stAfterTurn1 with
        currInputNumber := stAfterTurn1.currInputNumber + 1, hadError := false }
      (turnModuleName (stAfterTurn1.currInputNumber + 1)) none inputRedefineF.decls).2
    inputRedefineF fnDeclF [] [] none
    (by unfold wfPtrMap; decide) (by decide) rfl rfl rfl rfl rfl (by decide) (by decide)
    rfl rfl

/-- C3: for every declaration validated in a turn (`ExecuteSwift` lines
230-252): an unknown name is accepted; a known name whose existing and new
declarations differ in function-vs-non-function status is rejected as an
invalid redeclaration; two functions sharing an unmangled name are accepted
(matched at mangled-symbol granularity); two non-functions with the same name
are rejected; and in playground mode any function whose exact mangled symbol
is already registered is rejected even when both are functions. -/
theorem validator_redeclaration_rules :
    (∀ st d, mapFind st.declMap d.unmangled = none → mapFind st.declMap d.mangled = none →
      validateDecl st d = ValidationResult.accept) ∧
    (∀ st d, d.isFunc = true → mapFind st.declMap d.unmangled = some false →
      validateDecl st d = ValidationResult.reject d.unmangled) ∧
    (∀ st d, d.isFunc = false → mapFind st.declMap d.unmangled = some true →
      validateDecl st d = ValidationResult.reject d.unmangled) ∧
    (∀ st d, d.isFunc = true → mapFind st.declMap d.unmangled = some true →
      (st.isPlayground = false ∨ mapFind st.declMap d.mangled = none) →
      validateDecl st d = ValidationResult.accept) ∧
    (∀ st d, d.isFunc = false → mapFind st.declMap d.unmangled = some false →
      validateDecl st d = ValidationResult.reject d.unmangled) ∧
    (∀ st d, st.isPlayground = true → d.isFunc = true →
      (mapFind st.declMap d.mangled).isSome = true →
      validateDecl st d = ValidationResult.reject d.unmangled) := by
  refine ⟨?_, ?_, ?_, ?_, ?_, ?_⟩
  · intro st d h1 h2
    cases hf : d.isFunc <;> simp [validateDecl, hf, h1, h2]
  · intro st d hf h1
    simp [validateDecl, hf, h1]
  · intro st d hf h1
    simp [validateDecl, hf, h1]
  · intro st d hf h1 hp
    rcases hp with hp | hp <;> simp [validateDecl, hf, h1, hp]
  · intro st d hf h1
    simp [validateDecl, hf, h1]
  · intro st d hp hf hm
    cases h1 : mapFind st.declMap d.unmangled with
    | none => simp [validateDecl, hf, h1, hp, hm]
    | some b => cases b <;> simp [validateDecl, hf, h1, hp, hm]

theorem validator_redeclaration_rules_witness :
    validateDecl emptyState fnDeclF = ValidationResult.accept ∧
    validateDecl stVarF fnDeclF = ValidationResult.reject "f" ∧
    validateDecl stAfterTurn1 varDeclF = ValidationResult.reject "f" ∧
    validateDecl stAfterTurn1 fnDeclF = ValidationResult.accept ∧
    validateDecl stVarF varDeclF = ValidationResult.reject "f" ∧
    validateDecl { stAfterTurn1 with isPlayground := true } fnDeclF
      = ValidationResult.reject "f" :=
  ⟨validator_redeclaration_rules.1 emptyState fnDeclF (by decide) (by decide),
   validator_redeclaration_rules.2.1 stVarF fnDeclF (by decide) (by decide),
   validator_redeclaration_rules.2.2.1 stAfterTurn1 varDeclF (by decide) (by decide),
   validator_redeclaration_rules.2.2.2.1 stAfterTurn1 fnDeclF (by decide) (by decide)
     (Or.inl (by decide)),
   validator_redeclaration_rules.2.2.2.2.1 stVarF varDeclF (by decide) (by decide),
   validator_redeclaration_rules.2.2.2.2.2 { stAfterTurn1 with isPlayground := true }
     fnDeclF (by decide) (by decide) (by decide)⟩

/-- C9 counterexample: processing the line `"exit"` does mutate the turn
counter — `ExecuteSwift` increments `m_curr_input_number` (line 145) before
the exit check (line 148), so the claim that the turn counter is unchanged is
false on a fresh session. -/
theorem exit_increments_counter_cex :
    (ExecuteSwift emptyState inputExit).1 = false ∧
    (ExecuteSwift emptyState inputExit).2.currInputNumber = 1 ∧
    emptyState.currInputNumber = 0 := by
  exact ⟨by decide, by decide, by decide⟩

/-- C9 amended: an input equal to `"exit"` or `"e"` returns the
loop-terminating value with no compilation attempted and the Declaration
Registry, Indirection Table and JIT state unchanged — but the turn counter is
incremented by one (and the sticky diagnostic flag reset). -/
theorem exit_terminates_loop (st : ReplState) (input : TurnInput)
    (hexit : IsExitString input.line = true) :
    ExecuteSwift st input
      = (false, { st with currInputNumber := st.currInputNumber + 1, hadError := false }) := by
  simp [ExecuteSwift, hexit]

theorem exit_terminates_loop_witness :
    IsExitString inputExit.line = true ∧
    ExecuteSwift emptyState inputExit
      = (false, { emptyState with currInputNumber := 1, hadError := false }) :=
  ⟨by decide, exit_terminates_loop emptyState inputExit (by decide)⟩

/-- C2 counterexample: when the first declaration of a turn is an invalid
redeclaration (variable `f` over registered variable `f`), the message is
printed but the remaining declaration `g` of the same turn is NOT processed:
its names never enter the registry and no unit is linked — contradicting "the
turn continues processing the remaining declarations". -/
theorem invalid_redeclaration_skips_rest_cex :
    (ExecuteSwift stVarF inputRedeclThenG).1 = true ∧
    Event.printInvalidRedecl "f" ∈ (ExecuteSwift stVarF inputRedeclThenG).2.trace ∧
    mapFind (ExecuteSwift stVarF inputRedeclThenG).2.declMap "g" = none ∧
    mapFind (ExecuteSwift stVarF inputRedeclThenG).2.declMap "$g" = none ∧
    (ExecuteSwift stVarF inputRedeclThenG).2.addedModules = stVarF.addedModules := by
  exact ⟨by decide, by decide, by decide, by decide, by decide⟩

/-- C2 amended: a rejected declaration prints `Invalid redeclaration of
<name>` and returns `true` from `ExecuteSwift` — the loop continues — but the
offending declaration and every remaining declaration of the turn are
abandoned (the macro's `return true` leaves the turn; nothing of the turn
beyond the incremented counter and the printed message is committed when the
rejection hits the first declaration). -/
theorem invalid_redeclaration_aborts_turn (st : ReplState) (input : TurnInput)
    (d : SwiftDecl) (ds : List SwiftDecl) (n : String)
    (hexit : IsExitString input.line = false)
    (hpe : input.parseError = false) (hnb : input.nameBindError = false)
    (htc : input.typeCheckError = false)
    (hdecls : input.decls = d :: ds)
    (hrej : validateDecl
      { st with currInputNumber := st.currInputNumber + 1, hadError := false } d
      = ValidationResult.reject n) :
    ExecuteSwift st input = (true,
      { st with
          currInputNumber := st.currInputNumber + 1,
          hadError := false,
          trace := st.trace ++ [Event.printInvalidRedecl n] }) := by
  rw [executeSwift_clean_eq st input hexit hpe hnb htc, hdecls]
  simp only [ProcessDecls, hrej]

theorem invalid_redeclaration_aborts_turn_witness :
    validateDecl { stVarF with currInputNumber := 1, hadError := false } varDeclF
      = ValidationResult.reject "f" ∧
    ExecuteSwift stVarF inputRedeclThenG = (true,
      { stVarF with
          currInputNumber := 1,
          hadError := false,
          trace := [Event.printInvalidRedecl "f"] }) :=
  ⟨by decide,
   invalid_redeclaration_aborts_turn stVarF inputRedeclThenG varDeclF [fnDeclG] "f"
     (by decide) rfl rfl rfl rfl (by decide)⟩

/-- C7: if the frontend reports any diagnostic while parsing, name-binding or
type checking a turn's text, `ExecuteSwift` returns early with the recoverable
result and the Declaration Registry (`m_decl_map`), the Indirection Table
(`m_fn_ptr_map`) and the JIT session's bindings, slot cells and linked units
are exactly as they were after the last successful turn; no JIT operation is
even attempted (the event trace is unchanged). -/
theorem frontend_diagnostic_aborts_turn (st : ReplState) (input : TurnInput)
    (hexit : IsExitString input.line = false)
    (herr : input.parseError = true ∨ input.nameBindError = true
      ∨ input.typeCheckError = true) :
    (ExecuteSwift st input).1 = true ∧
    (ExecuteSwift st input).2.declMap = st.declMap ∧
    (ExecuteSwift st input).2.fnPtrMap = st.fnPtrMap ∧
    (ExecuteSwift st input).2.jitBindings = st.jitBindings ∧
    (ExecuteSwift st input).2.slotStore = st.slotStore ∧
    (ExecuteSwift st input).2.addedModules = st.addedModules ∧
    (ExecuteSwift st input).2.trace = st.trace := by
  cases hp : input.parseError with
  | true =>
    have he : ExecuteSwift st input = (true,
        { st with currInputNumber := st.currInputNumber + 1, hadError := true }) := by
      simp [ExecuteSwift, hexit, hp]
    rw [he]
    exact ⟨rfl, rfl, rfl, rfl, rfl, rfl, rfl⟩
  | false =>
    cases hn : input.nameBindError with
    | true =>
      have he : ExecuteSwift st input = (true,
          { st with currInputNumber := st.currInputNumber + 1, hadError := true }) := by
        simp [ExecuteSwift, hexit, hp, hn]
      rw [he]
      exact ⟨rfl, rfl, rfl, rfl, rfl, rfl, rfl⟩
    | false =>
      cases ht : input.typeCheckError with
      | true =>
        have he : ExecuteSwift st input = (true,
            { st with currInputNumber := st.currInputNumber + 1, hadError := true }) := by
          simp [ExecuteSwift, hexit, hp, hn, ht]
        rw [he]
        exact ⟨rfl, rfl, rfl, rfl, rfl, rfl, rfl⟩
      | false =>
        rcases herr with h | h | h
        · rw [hp] at h
          exact absurd h (by simp)
        · rw [hn] at h
          exact absurd h (by simp)
        · rw [ht] at h
          exact absurd h (by simp)

theorem frontend_diagnostic_aborts_turn_witness :
    IsExitString inputParseErr.line = false ∧
    inputParseErr.parseError = true ∧
    ((ExecuteSwift stAfterTurn1 inputParseErr).1 = true ∧
     (ExecuteSwift stAfterTurn1 inputParseErr).2.declMap = stAfterTurn1.declMap ∧
     (ExecuteSwift stAfterTurn1 inputParseErr).2.fnPtrMap = stAfterTurn1.fnPtrMap ∧
     (ExecuteSwift stAfterTurn1 inputParseErr).2.jitBindings = stAfterTurn1.jitBindings ∧
     (ExecuteSwift stAfterTurn1 inputParseErr).2.slotStore = stAfterTurn1.slotStore ∧
     (ExecuteSwift stAfterTurn1 inputParseErr).2.addedModules = stAfterTurn1.addedModules ∧
     (ExecuteSwift stAfterTurn1 inputParseErr).2.trace = stAfterTurn1.trace) :=
  ⟨by decide, by decide,
   frontend_diagnostic_aborts_turn stAfterTurn1 inputParseErr (by decide)
     (Or.inl (by decide))⟩

/-- C5 counterexample: in a session where the JIT reports
`SymbolsCouldNotBeRemoved` for `$f` (the bound symbol is in the `unremovable`
oracle set), the redefining turn is NOT fatal: `RemoveRedeclarationsFromJIT`
only logs the failure (lines 50-55), the turn proceeds, links the new unit
and repatches the slot — contradicting "any other removal failure is fatal to
the turn". -/
theorem removal_failure_not_fatal_cex :
    mapFind stUnremovable.jitBindings "$f" = some ⟨"$f", 1⟩ ∧
    (jitRemoveSymbol stUnremovable "$f").1 = RemoveOutcome.couldNotBeRemoved ∧
    (ExecuteSwift stUnremovable inputRedefineF).1 = true ∧
    Event.addUnit 2 ∈ (ExecuteSwift stUnremovable inputRedefineF).2.trace ∧
    mapFind (ExecuteSwift stUnremovable inputRedefineF).2.slotStore (slotName "$f")
      = some (some (SymAddr.fnAddr ⟨"$f", 2⟩)) := by
  exact ⟨by decide, by decide, by decide, by decide, by decide⟩

/-- C5 amended: a "symbol not found" removal outcome is treated as success
(removal of a never-bound symbol changes nothing and does not block
subsequently linking a unit defining that symbol), while any other removal
failure is only logged: the state is left as it was and the turn still
proceeds to add the unit. -/
theorem removal_failures_not_fatal :
    (∀ st n, mapFind st.jitBindings n = none →
      jitRemoveSymbol st n = (RemoveOutcome.notFound, st)) ∧
    (∀ st n, (jitRemoveSymbol st n).1 = RemoveOutcome.couldNotBeRemoved →
      (jitRemoveSymbol st n).2 = st) ∧
    (∀ st d, d.addModuleOk = true →
      Event.addUnit st.currInputNumber ∈ (compilePipeline st d).2.trace) := by
  refine ⟨?_, ?_, ?_⟩
  · intro st n h
    simp [jitRemoveSymbol, h]
  · intro st n h
    cases h2 : mapFind st.jitBindings n with
    | none => simp [jitRemoveSymbol, h2]
    | some impl =>
      by_cases hc : n ∈ st.unremovable
      · simp [jitRemoveSymbol, h2, hc]
      · simp [jitRemoveSymbol, h2, hc] at h
  · intro st d h3
    rw [pipeline_result]
    simp only [UpdateFunctionPointers]
    obtain ⟨evs, hev, hprop⟩ := upGo_trace _ _
    rw [hev]
    refine List.mem_append_left _ ?_
    rw [h3]
    have ht : (jitAddModule
        (AddFunctionPointersGo
          (RemoveRedeclarationsGo st (codegenModule st.currInputNumber d).functions)
          (codegenModule st.currInputNumber d).functions)
        (ReplaceFunctionCallsWithIndirectFunctionCalls
          (AddFunctionPointersGo
            (RemoveRedeclarationsGo st (codegenModule st.currInputNumber d).functions)
            (codegenModule st.currInputNumber d).functions)
          (codegenModule st.currInputNumber d))
        true).trace
        = (AddFunctionPointersGo
          (RemoveRedeclarationsGo st (codegenModule st.currInputNumber d).functions)
          (codegenModule st.currInputNumber d).functions).trace
          ++ [Event.addUnit st.currInputNumber] := by
      simp [jitAddModule]
      rfl
    rw [ht]
    exact List.mem_append_right _ (by simp)

theorem removal_failures_not_fatal_witness :
    mapFind emptyState.jitBindings "$f" = none ∧
    jitRemoveSymbol emptyState "$f" = (RemoveOutcome.notFound, emptyState) ∧
    (jitRemoveSymbol stUnremovable "$f").1 = RemoveOutcome.couldNotBeRemoved ∧
    (jitRemoveSymbol stUnremovable "$f").2 = stUnremovable ∧
    fnDeclF.addModuleOk = true ∧
    Event.addUnit 1 ∈ (compilePipeline stAfterTurn1 fnDeclF).2.trace :=
  ⟨by decide,
   removal_failures_not_fatal.1 emptyState "$f" (by decide),
   by decide,
   removal_failures_not_fatal.2.1 stUnremovable "$f" (by decide),
   by decide,
   removal_failures_not_fatal.2.2 stAfterTurn1 fnDeclF (by decide)⟩

/-- C10: after a unit is linked, `UpdateFunctionPointers` iterates over every
entry ever recorded in `m_fn_ptr_map` — not only the new unit's symbols —
re-writing each slot with the symbol's currently resolved address (first
conjunct); consequently, if any recorded symbol has become unresolvable, the
pass fails — and with it the turn — even when that symbol is unrelated to the
unit just linked (second conjunct, which places no constraint tying `sym` to
any module). -/
theorem update_repatches_every_entry :
    (∀ st st', UpdateFunctionPointers st = (true, st') →
      (∀ p ∈ st.fnPtrMap, p.2 = slotName p.1 ∧ (mapFind st.slotStore p.2).isSome) →
      ∀ sym slot, (sym, slot) ∈ st.fnPtrMap →
        ∃ a, jitLookup st sym = some a ∧ mapFind st'.slotStore slot = some (some a)) ∧
    (∀ st sym slot, (∀ p ∈ st.fnPtrMap, p.2 = slotName p.1) →
      (sym, slot) ∈ st.fnPtrMap → jitLookup st sym = none →
      (UpdateFunctionPointers st).1 = false) := by
  constructor
  · intro st st' hrun hwf sym slot hmem
    exact upGo_success_slot st.fnPtrMap st st' hrun hwf sym slot hmem
  · intro st sym slot hwf hmem hnone
    exact (upGo_unresolvable st.fnPtrMap st sym hwf ⟨slot, hmem⟩ hnone).1

theorem update_repatches_every_entry_witness :
    (∃ a, jitLookup stAfterTurn1 "$f" = some a ∧
      mapFind (UpdateFunctionPointers stAfterTurn1).2.slotStore (slotName "$f")
        = some (some a)) ∧
    (UpdateFunctionPointers stFailedLink).1 = false :=
  ⟨update_repatches_every_entry.1 stAfterTurn1 (UpdateFunctionPointers stAfterTurn1).2
     rfl (by decide) "$f" (slotName "$f") (by decide),
   update_repatches_every_entry.2 stFailedLink "$f" (slotName "$f") (by decide) (by decide)
     (by decide)⟩

/-- C6: if an indirection slot's target symbol cannot be resolved after a
unit is linked, the patching pass returns the error (the turn fails) and that
target's slot is left exactly as it was — unset, never written with a stale
or invalid address (first conjunct); and a later successful redefinition of
that target populates the slot with the new implementation's address (second
conjunct). -/
theorem unresolved_target_leaves_slot_unset :
    (∀ st sym slot, (∀ p ∈ st.fnPtrMap, p.2 = slotName p.1) →
      (sym, slot) ∈ st.fnPtrMap → jitLookup st sym = none →
      mapFind st.slotStore (slotName sym) = some none →
      (UpdateFunctionPointers st).1 = false ∧
      mapFind (UpdateFunctionPointers st).2.slotStore (slotName sym) = some none) ∧
    (∀ st st' d, st.hadError = false → d.silgenError = false → d.silPassError = false →
      d.addModuleOk = true → d.isFunc = true → wfPtrMap st →
      CompileSourceFileToIRAndAddToJIT st d = (true, st') →
      mapFind st'.slotStore (slotName d.mangled)
        = some (some (SymAddr.fnAddr ⟨d.mangled, st.currInputNumber⟩))) := by
  constructor
  · intro st sym slot hwf hmem hnone hunset
    obtain ⟨h1, h2⟩ := upGo_unresolvable st.fnPtrMap st sym hwf ⟨slot, hmem⟩ hnone
    refine ⟨h1, ?_⟩
    show mapFind (UpdateFunctionPointersGo st st.fnPtrMap).2.slotStore (slotName sym)
      = some none
    rw [h2]
    exact hunset
  · intro st st' d h0 h1 h2 h3 hfn hwf hrun
    exact (compile_success_core st st' d h0 h1 h2 h3 hfn hwf hrun).2.2

theorem unresolved_target_leaves_slot_unset_witness :
    ((UpdateFunctionPointers stFailedLink).1 = false ∧
     mapFind (UpdateFunctionPointers stFailedLink).2.slotStore (slotName "$f")
       = some none) ∧
    mapFind (CompileSourceFileToIRAndAddToJIT stFailedLink fnDeclF).2.slotStore
        (slotName "$f")
      = some (some (SymAddr.fnAddr ⟨"$f", 1⟩)) :=
  ⟨unresolved_target_leaves_slot_unset.1 stFailedLink "$f" (slotName "$f")
     (by decide) (by decide) (by decide) (by decide),
   unresolved_target_leaves_slot_unset.2 stFailedLink
     (CompileSourceFileToIRAndAddToJIT stFailedLink fnDeclF).2 fnDeclF
     rfl rfl rfl rfl rfl (by unfold wfPtrMap; decide) rfl⟩

/-- C8 counterexample: a turn whose entry wrapper's unit is skipped by a
codegen diagnostic ends with a failed entry-point lookup, and `ExecuteSwift`
returns `false` — the same value the exit string returns, so the Turn
Controller terminates instead of re-prompting: the second queued input is
never processed (the counter stays at 1). -/
theorem entry_lookup_failure_terminates_cex :
    (ExecuteSwift emptyState inputWrapperBad).1 = false ∧
    (RunLoop emptyState [inputWrapperBad, inputRedefineF]).currInputNumber = 1 := by
  exact ⟨by decide, by decide⟩

/-- C8 amended: frontend diagnostics, codegen failures and link failures are
local to their turn — `ExecuteSwift` returns the recoverable value `true` and
linked state is only ever extended, never rolled back — but a failed
entry-point lookup returns `false`, the loop-terminating value. -/
theorem turn_failures_recoverable_except_entry_lookup :
    (∀ st input, IsExitString input.line = false →
      (input.parseError = true ∨ input.nameBindError = true
        ∨ input.typeCheckError = true) →
      (ExecuteSwift st input).1 = true) ∧
    (∀ st input st4, IsExitString input.line = false →
      input.parseError = false → input.nameBindError = false →
      input.typeCheckError = false →
      ProcessDecls { st with currInputNumber := st.currInputNumber + 1, hadError := false }
        (turnModuleName (st.currInputNumber + 1)) none input.decls
        = (TurnExit.abortedCompileFailure, st4) →
      ExecuteSwift st input = (true, st4)) ∧
    (∀ st input st4 resSym, IsExitString input.line = false →
      input.parseError = false → input.nameBindError = false →
      input.typeCheckError = false →
      ProcessDecls { st with currInputNumber := st.currInputNumber + 1, hadError := false }
        (turnModuleName (st.currInputNumber + 1)) none input.decls
        = (TurnExit.completed (some resSym), st4) →
      jitLookup st4 resSym = none →
      ExecuteSwift st input = (false, st4)) ∧
    (∀ st input, ∃ t, (ExecuteSwift st input).2.addedModules = st.addedModules ++ t) := by
  refine ⟨?_, ?_, ?_, ?_⟩
  · intro st input hexit herr
    cases hp : input.parseError with
    | true => simp [ExecuteSwift, hexit, hp]
    | false =>
      cases hn : input.nameBindError with
      | true => simp [ExecuteSwift, hexit, hp, hn]
      | false =>
        cases ht : input.typeCheckError with
        | true => simp [ExecuteSwift, hexit, hp, hn, ht]
        | false =>
          rcases herr with h | h | h
          · rw [hp] at h
            exact absurd h (by simp)
          · rw [hn] at h
            exact absurd h (by simp)
          · rw [ht] at h
            exact absurd h (by simp)
  · intro st input st4 hexit hpe hnb htc hP
    rw [executeSwift_clean_eq st input hexit hpe hnb htc, hP]
  · intro st input st4 resSym hexit hpe hnb htc hP hjl
    rw [executeSwift_clean_eq st input hexit hpe hnb htc, hP]
    have h2 : (match jitLookup st4 resSym with
        | some _ => (true, { st4 with trace := st4.trace ++ [Event.invokeEntry resSym] })
        | none => ((false, st4) : Bool × ReplState)) = (false, st4) := by
      rw [hjl]
    exact h2
  · intro st input
    by_cases hexit : IsExitString input.line = true
    · have he : ExecuteSwift st input
          = (false, { st with currInputNumber := st.currInputNumber + 1, hadError := false }) := by
        simp [ExecuteSwift, hexit]
      rw [he]
      exact ⟨[], by simp⟩
    · have hexit2 : IsExitString input.line = false := by
        simpa using hexit
      cases hp : input.parseError with
      | true =>
        have he : ExecuteSwift st input
            = (true, { st with currInputNumber := st.currInputNumber + 1, hadError := true }) := by
          simp [ExecuteSwift, hexit2, hp]
        rw [he]
        exact ⟨[], by simp⟩
      | false =>
        cases hn : input.nameBindError with
        | true =>
          have he : ExecuteSwift st input
              = (true, { st with currInputNumber := st.currInputNumber + 1, hadError := true }) := by
            simp [ExecuteSwift, hexit2, hp, hn]
          rw [he]
          exact ⟨[], by simp⟩
        | false =>
          cases ht : input.typeCheckError with
          | true =>
            have he : ExecuteSwift st input
                = (true, { st with currInputNumber := st.currInputNumber + 1, hadError := true }) := by
              simp [ExecuteSwift, hexit2, hp, hn, ht]
            rw [he]
            exact ⟨[], by simp⟩
          | false =>
            rw [executeSwift_clean_eq st input hexit2 hp hn ht]
            obtain ⟨t, ht2⟩ := (processDecls_state input.decls
              { st with currInputNumber := st.currInputNumber + 1, hadError := false }
              (turnModuleName (st.currInputNumber + 1)) none).2.2.2.1
            rcases hP : ProcessDecls
              { st with currInputNumber := st.currInputNumber + 1, hadError := false }
              (turnModuleName (st.currInputNumber + 1)) none input.decls with ⟨e, st4⟩
            rw [hP] at ht2
            cases e with
            | abortedInvalidRedecl => exact ⟨t, ht2⟩
            | abortedCompileFailure => exact ⟨t, ht2⟩
            | completed o =>
              cases o with
              | none => exact ⟨t, ht2⟩
              | some resSym =>
                have h3 : ∃ u, (match jitLookup st4 resSym with
                    | some _ => (true, { st4 with
                        trace := st4.trace ++ [Event.invokeEntry resSym] })
                    | none => ((false, st4) : Bool × ReplState)).2.addedModules
                    = st.addedModules ++ u := by
                  cases hjl : jitLookup st4 resSym with
                  | none => exact ⟨t, ht2⟩
                  | some a => exact ⟨t, ht2⟩
                exact h3

theorem turn_failures_recoverable_except_entry_lookup_witness :
    (ExecuteSwift stAfterTurn1 inputParseErr).1 = true ∧
    ExecuteSwift emptyState inputBadLink
      = (true, (ProcessDecls { emptyState with currInputNumber := 1, hadError := false }
          (turnModuleName 1) none inputBadLink.decls).2) ∧
    ExecuteSwift emptyState inputWrapperBad
      = (false, (ProcessDecls { emptyState with currInputNumber := 1, hadError := false }
          (turnModuleName 1) none inputWrapperBad.decls).2) ∧
    (∃ t, (ExecuteSwift emptyState inputWrapperBad).2.addedModules
      = emptyState.addedModules ++ t) :=
  ⟨turn_failures_recoverable_except_entry_lookup.1 stAfterTurn1 inputParseErr (by decide)
     (Or.inl (by decide)),
   turn_failures_recoverable_except_entry_lookup.2.1 emptyState inputBadLink _
     (by decide) rfl rfl rfl (by decide),
   turn_failures_recoverable_except_entry_lookup.2.2.1 emptyState inputWrapperBad _ "$w1"
     (by decide) rfl rfl rfl (by decide) (by decide),
   turn_failures_recoverable_except_entry_lookup.2.2.2 emptyState inputWrapperBad⟩

theorem pipeline_trace (st : ReplState) (d : SwiftDecl) (hok : d.addModuleOk = true) :
    ∃ rs ps, (compilePipeline st d).2.trace
        = st.trace ++ rs ++ [Event.addUnit st.currInputNumber] ++ ps ∧
      (∀ e ∈ rs, ∃ n, e = Event.removeSym n) ∧
      (∀ e ∈ ps, ∃ sym slot a, e = Event.patchSlot slot a ∧
        (sym, slot) ∈ (compilePipeline st d).2.fnPtrMap ∧
        jitLookup (compilePipeline st d).2 sym = some a) := by
  rw [pipeline_result]
  simp only [UpdateFunctionPointers]
  rw [hok]
  obtain ⟨v1, v2, v3, v4, v5, v6, v7, v8, v9, v10, v11, v12⟩ :=
    removeGo_state (codegenModule st.currInputNumber d).functions st
  obtain ⟨w1, w2, w3, w4, w5, w6, w7, w8, w9, w10, w11⟩ :=
    addGo_state (codegenModule st.currInputNumber d).functions
      (RemoveRedeclarationsGo st (codegenModule st.currInputNumber d).functions)
  obtain ⟨rs, hrs, hrsp⟩ := v12
  have hadd : (jitAddModule
      (AddFunctionPointersGo
        (RemoveRedeclarationsGo st (codegenModule st.currInputNumber d).functions)
        (codegenModule st.currInputNumber d).functions)
      (ReplaceFunctionCallsWithIndirectFunctionCalls
        (AddFunctionPointersGo
          (RemoveRedeclarationsGo st (codegenModule st.currInputNumber d).functions)
          (codegenModule st.currInputNumber d).functions)
        (codegenModule st.currInputNumber d))
      true).trace
      = (AddFunctionPointersGo
        (RemoveRedeclarationsGo st (codegenModule st.currInputNumber d).functions)
        (codegenModule st.currInputNumber d).functions).trace
        ++ [Event.addUnit st.currInputNumber] := by
    simp [jitAddModule]
    rfl
  obtain ⟨ps, hps, hpsp⟩ := upGo_trace
    (jitAddModule
      (AddFunctionPointersGo
        (RemoveRedeclarationsGo st (codegenModule st.currInputNumber d).functions)
        (codegenModule st.currInputNumber d).functions)
      (ReplaceFunctionCallsWithIndirectFunctionCalls
        (AddFunctionPointersGo
          (RemoveRedeclarationsGo st (codegenModule st.currInputNumber d).functions)
          (codegenModule st.currInputNumber d).functions)
        (codegenModule st.currInputNumber d))
      true).fnPtrMap
    (jitAddModule
      (AddFunctionPointersGo
        (RemoveRedeclarationsGo st (codegenModule st.currInputNumber d).functions)
        (codegenModule st.currInputNumber d).functions)
      (ReplaceFunctionCallsWithIndirectFunctionCalls
        (AddFunctionPointersGo
          (RemoveRedeclarationsGo st (codegenModule st.currInputNumber d).functions)
          (codegenModule st.currInputNumber d).functions)
        (codegenModule st.currInputNumber d))
      true)
  refine ⟨rs, ps, ?_, hrsp, ?_⟩
  · rw [hps, hadd, w8, hrs]
  · intro e he
    obtain ⟨sym, slot, a, he2, hm, hl⟩ := hpsp e he
    refine ⟨sym, slot, a, he2, ?_, ?_⟩
    · rw [(upGo_preserves _ _).2.1]
      exact hm
    · rw [upGo_jitLookup]
      exact hl

theorem compile_trace_no_invoke (st : ReplState) (d : SwiftDecl) :
    ∃ evs, (CompileSourceFileToIRAndAddToJIT st d).2.trace = st.trace ++ evs ∧
      ∀ m, Event.invokeEntry m ∉ evs := by
  by_cases h1 : d.silgenError = true
  · have he : CompileSourceFileToIRAndAddToJIT st d = (true, { st with hadError := true }) := by
      simp only [CompileSourceFileToIRAndAddToJIT, h1, if_true]
    rw [he]
    exact ⟨[], by simp, by simp⟩
  · by_cases h0 : st.hadError = true
    · have he : CompileSourceFileToIRAndAddToJIT st d = (true, st) := by
        simp only [CompileSourceFileToIRAndAddToJIT, h1, Bool.false_eq_true, if_false, h0,
          if_true]
      rw [he]
      exact ⟨[], by simp, by simp⟩
    · by_cases h2 : d.silPassError = true
      · have he : CompileSourceFileToIRAndAddToJIT st d
            = (true, { st with hadError := true }) := by
          simp only [CompileSourceFileToIRAndAddToJIT, h1, Bool.false_eq_true, if_false, h0, h2,
            if_true]
        rw [he]
        exact ⟨[], by simp, by simp⟩
      · rw [compile_clean_eq st d (Bool.not_eq_true _ ▸ h0) (Bool.not_eq_true _ ▸ h1)
          (Bool.not_eq_true _ ▸ h2), pipeline_result]
        simp only [UpdateFunctionPointers]
        obtain ⟨v1, v2, v3, v4, v5, v6, v7, v8, v9, v10, v11, v12⟩ :=
          removeGo_state (codegenModule st.currInputNumber d).functions st
        obtain ⟨w1, w2, w3, w4, w5, w6, w7, w8, w9, w10, w11⟩ :=
          addGo_state (codegenModule st.currInputNumber d).functions
            (RemoveRedeclarationsGo st (codegenModule st.currInputNumber d).functions)
        obtain ⟨j1, j2, j3, j4, j5, j6, j7, j8, j9, j10⟩ := jitAddModule_state
          (AddFunctionPointersGo
            (RemoveRedeclarationsGo st (codegenModule st.currInputNumber d).functions)
            (codegenModule st.currInputNumber d).functions)
          (ReplaceFunctionCallsWithIndirectFunctionCalls
            (AddFunctionPointersGo
              (RemoveRedeclarationsGo st (codegenModule st.currInputNumber d).functions)
              (codegenModule st.currInputNumber d).functions)
            (codegenModule st.currInputNumber d))
          d.addModuleOk
        obtain ⟨rs, hrs, hrsp⟩ := v12
        obtain ⟨as2, has, hasp⟩ := j9
        obtain ⟨ps, hps, hpsp⟩ := upGo_trace _ _
        refine ⟨rs ++ as2 ++ ps, ?_, ?_⟩
        · rw [hps, has, w8, hrs]
          simp [List.append_assoc]
        · intro m hm
          rcases List.mem_append.mp hm with hm | hm
          · rcases List.mem_append.mp hm with hm | hm
            · obtain ⟨n, hn⟩ := hrsp _ hm
              exact Event.noConfusion hn
            · have hn := hasp _ hm
              exact Event.noConfusion hn
          · obtain ⟨sym, slot, a, he2, _, _⟩ := hpsp _ hm
            exact Event.noConfusion he2

theorem processDecls_trace_no_invoke (ds : List SwiftDecl) (st : ReplState) (mn : String)
    (r : Option String) :
    ∃ evs, (ProcessDecls st mn r ds).2.trace = st.trace ++ evs ∧
      ∀ m, Event.invokeEntry m ∉ evs := by
  induction ds generalizing st r with
  | nil => exact ⟨[], by simp [ProcessDecls], by simp⟩
  | cons d rest ih =>
    cases hv : validateDecl st d with
    | reject n =>
      have he : ProcessDecls st mn r (d :: rest) = (TurnExit.abortedInvalidRedecl,
          { st with trace := st.trace ++ [Event.printInvalidRedecl n] }) := by
        simp only [ProcessDecls, hv]
      rw [he]
      refine ⟨[Event.printInvalidRedecl n], rfl, ?_⟩
      intro m hm
      simp at hm
    | accept =>
      simp only [ProcessDecls, hv]
      obtain ⟨evs1, hev1, hp1⟩ := compile_trace_no_invoke
        { st with declMap := (mapSet (mapSet st.declMap d.unmangled d.isFunc)
          d.linkName d.isFunc) } d
      split
      · obtain ⟨evs2, hev2, hp2⟩ := ih _ _
        refine ⟨evs1 ++ evs2, ?_, ?_⟩
        · rw [hev2, hev1]
          simp [List.append_assoc]
        · intro m hm
          rcases List.mem_append.mp hm with hm | hm
          · exact hp1 m hm
          · exact hp2 m hm
      · exact ⟨evs1, hev1, hp1⟩

theorem executeSwift_invoke_last (st : ReplState) (input : TurnInput) :
    ∃ evs inv, (ExecuteSwift st input).2.trace = st.trace ++ evs ++ inv ∧
      (∀ m, Event.invokeEntry m ∉ evs) ∧
      (inv = [] ∨ ∃ m, inv = [Event.invokeEntry m]) := by
  by_cases hexit : IsExitString input.line = true
  · have he : ExecuteSwift st input
        = (false, { st with currInputNumber := st.currInputNumber + 1, hadError := false }) := by
      simp [ExecuteSwift, hexit]
    rw [he]
    exact ⟨[], [], by simp, by simp, Or.inl rfl⟩
  · have hexit2 : IsExitString input.line = false := by
      simpa using hexit
    cases hp : input.parseError with
    | true =>
      have he : ExecuteSwift st input
          = (true, { st with currInputNumber := st.currInputNumber + 1, hadError := true }) := by
        simp [ExecuteSwift, hexit2, hp]
      rw [he]
      exact ⟨[], [], by simp, by simp, Or.inl rfl⟩
    | false =>
      cases hn : input.nameBindError with
      | true =>
        have he : ExecuteSwift st input
            = (true, { st with currInputNumber := st.currInputNumber + 1, hadError := true }) := by
          simp [ExecuteSwift, hexit2, hp, hn]
        rw [he]
        exact ⟨[], [], by simp, by simp, Or.inl rfl⟩
      | false =>
        cases ht : input.typeCheckError with
        | true =>
          have he : ExecuteSwift st input
              = (true, { st with currInputNumber := st.currInputNumber + 1, hadError := true }) := by
            simp [ExecuteSwift, hexit2, hp, hn, ht]
          rw [he]
          exact ⟨[], [], by simp, by simp, Or.inl rfl⟩
        | false =>
          rw [executeSwift_clean_eq st input hexit2 hp hn ht]
          obtain ⟨evs, hev, hnoinv⟩ := processDecls_trace_no_invoke input.decls
            { st with currInputNumber := st.currInputNumber + 1, hadError := false }
            (turnModuleName (st.currInputNumber + 1)) none
          rcases hP : ProcessDecls
            { st with currInputNumber := st.currInputNumber + 1, hadError := false }
            (turnModuleName (st.currInputNumber + 1)) none input.decls with ⟨e, st4⟩
          rw [hP] at hev
          cases e with
          | abortedInvalidRedecl => exact ⟨evs, [], by simpa using hev, hnoinv, Or.inl rfl⟩
          | abortedCompileFailure => exact ⟨evs, [], by simpa using hev, hnoinv, Or.inl rfl⟩
          | completed o =>
            cases o with
            | none => exact ⟨evs, [], by simpa using hev, hnoinv, Or.inl rfl⟩
            | some resSym =>
              cases hjl : jitLookup st4 resSym with
              | none =>
                refine ⟨evs, [], ?_, hnoinv, Or.inl rfl⟩
                have h2 : (match jitLookup st4 resSym with
                    | some _ => (true, { st4 with
                        trace := st4.trace ++ [Event.invokeEntry resSym] })
                    | none => ((false, st4) : Bool × ReplState)).2.trace
                    = st4.trace := by
                  rw [hjl]
                rw [h2, hev]
                simp
              | some a =>
                refine ⟨evs, [Event.invokeEntry resSym], ?_, hnoinv, Or.inr ⟨resSym, rfl⟩⟩
                have h2 : (match jitLookup st4 resSym with
                    | some _ => (true, { st4 with
                        trace := st4.trace ++ [Event.invokeEntry resSym] })
                    | none => ((false, st4) : Bool × ReplState)).2.trace
                    = st4.trace ++ [Event.invokeEntry resSym] := by
                  rw [hjl]
                rw [h2, hev]

/-- C4: for every newly generated unit compiled in a clean turn, the event
trace extends by removals, then exactly one `addUnit` for the current turn,
then slot patches; every patch writes a slot that the indirection table maps
some symbol to, with an address that symbol resolves to in the final state
(so patching happens only after linking makes the target resolvable); and
across a whole turn the entry point is invoked at most once, strictly after
all other events of the turn. -/
theorem unit_operations_ordered :
    (∀ (st : ReplState) (d : SwiftDecl),
      st.hadError = false → d.silgenError = false → d.silPassError = false →
      d.addModuleOk = true →
      ∃ rs ps, (CompileSourceFileToIRAndAddToJIT st d).2.trace
          = st.trace ++ rs ++ [Event.addUnit st.currInputNumber] ++ ps ∧
        (∀ e ∈ rs, ∃ n, e = Event.removeSym n) ∧
        (∀ e ∈ ps, ∃ sym slot a, e = Event.patchSlot slot a ∧
          (sym, slot) ∈ (CompileSourceFileToIRAndAddToJIT st d).2.fnPtrMap ∧
          jitLookup (CompileSourceFileToIRAndAddToJIT st d).2 sym = some a)) ∧
    (∀ (st : ReplState) (input : TurnInput),
      ∃ evs inv, (ExecuteSwift st input).2.trace = st.trace ++ evs ++ inv ∧
        (∀ m, Event.invokeEntry m ∉ evs) ∧
        (inv = [] ∨ ∃ m, inv = [Event.invokeEntry m])) := by
  refine ⟨?_, ?_⟩
  · intro st d h0 h1 h2 hok
    rw [compile_clean_eq st d h0 h1 h2]
    exact pipeline_trace st d hok
  · intro st input
    exact executeSwift_invoke_last st input

theorem unit_operations_ordered_witness :
    stAfterTurn1.hadError = false ∧ fnDeclF.silgenError = false ∧
    fnDeclF.silPassError = false ∧ fnDeclF.addModuleOk = true ∧
    (∃ rs ps, (CompileSourceFileToIRAndAddToJIT stAfterTurn1 fnDeclF).2.trace
        = stAfterTurn1.trace ++ rs
          ++ [Event.addUnit stAfterTurn1.currInputNumber] ++ ps ∧
      (∀ e ∈ rs, ∃ n, e = Event.removeSym n) ∧
      (∀ e ∈ ps, ∃ sym slot a, e = Event.patchSlot slot a ∧
        (sym, slot) ∈ (CompileSourceFileToIRAndAddToJIT stAfterTurn1 fnDeclF).2.fnPtrMap ∧
        jitLookup (CompileSourceFileToIRAndAddToJIT stAfterTurn1 fnDeclF).2 sym
          = some a)) ∧
    (∃ evs inv, (ExecuteSwift emptyState inputRedefineF).2.trace
        = emptyState.trace ++ evs ++ inv ∧
      (∀ m, Event.invokeEntry m ∉ evs) ∧
      (inv = [] ∨ ∃ m, inv = [Event.invokeEntry m])) :=
  ⟨by decide, by decide, by decide, by decide,
   unit_operations_ordered.1 stAfterTurn1 fnDeclF (by decide) (by decide) (by decide)
     (by decide),
   unit_operations_ordered.2 emptyState inputRedefineF⟩
